import Mathlib

/-!
# Verification of the migration matching engine

A shallow embedding of `models.py` and `methods.py`: matchings of agents to
capacity-bounded localities, a family of utility models (additive,
retroactive-correction, interview, coordination), and the three optimizers
(greedy, exact additive relaxation, best-of-random).

Python machine model used throughout:
* Python `int` is `ℤ`, `float` arithmetic on the values occurring here is `ℚ`.
* A matching entry is `Option ℤ` (`None` or a locality index).
* List subscripts follow Python semantics: a negative index counts from the
  end of the list, an out-of-range index raises `IndexError`.
* Exceptions are `Except PyError`; the external random source is an explicit
  stream `ℕ → ℚ` of the values returned by `random.random()`, consumed at an
  explicit counter, and external library calls (the Gurobi solver, the igraph
  maximum-bipartite-matching routine, `random.shuffle`) are oracle parameters,
  as the specification treats them as black boxes.
-/

/-- The Python exceptions that the embedded code can raise.  `nonTermination`
is an artifact of embedding the unbounded retry loops of `best_of_random`
with explicit fuel; it is never reached in any run considered here. -/
inductive PyError where
  | valueError
  | indexError
  | typeError
  | assertionError
  | nonTermination
deriving DecidableEq, Repr

deriving instance DecidableEq for Except

/-- A matching: for each agent, her locality (a Python int) or `none`. -/
abbrev Matching := List (Option ℤ)

/-- Resolve a Python list subscript of a list of length `len`: nonnegative
indices must be below `len`, negative indices count from the end. -/
def pyIdx (len : ℕ) (i : ℤ) : Option ℕ :=
  if 0 ≤ i then
    if i < (len : ℤ) then some i.toNat else none
  else
    if -(len : ℤ) ≤ i then some (len - (-i).toNat) else none

/-- Python `xs[i]` (read). `none` models `IndexError`. -/
def pyGet (xs : List α) (i : ℤ) : Option α :=
  match pyIdx xs.length i with
  | none => none
  | some k => xs.get? k

/-- Python in-place update `xs[i] = f xs[i]`. `none` models `IndexError`. -/
def pyModify (xs : List α) (i : ℤ) (f : α → α) : Option (List α) :=
  match pyIdx xs.length i with
  | none => none
  | some k =>
    match xs.get? k with
    | none => none
    | some a => some (xs.set k (f a))

/-- Python `xss[i][j] = f xss[i][j]` on a nested list. -/
def pyModify2 (xss : List (List α)) (i j : ℤ) (f : α → α) : Option (List (List α)) :=
  match pyGet xss i with
  | none => none
  | some row =>
    match pyModify row j f with
    | none => none
    | some row' => pyModify xss i (fun _ => row')

/-- Turn an optional value into `Except`, raising `e` on `none`. -/
def ofOption (o : Option α) (e : PyError) : Except PyError α :=
  match o with
  | none => .error e
  | some a => .ok a

/-- Insert into a sorted list, keeping order (ascending). -/
def insertSorted [LinearOrder α] (a : α) : List α → List α
  | [] => [a]
  | b :: bs => if a ≤ b then a :: b :: bs else b :: insertSorted a bs

/-- Python `sorted(...)` (ascending insertion sort; stability is irrelevant
for the keys used here). -/
def pySorted [LinearOrder α] (l : List α) : List α :=
  l.foldr insertSorted []

/-- Lookup in a memoization dictionary, embedded as an association list. -/
def memoLookup [DecidableEq κ] (memo : List (κ × ℚ)) (k : κ) : Option ℚ :=
  match memo.find? (fun e => decide (e.1 = k)) with
  | none => none
  | some e => some e.2

/-- Store a value in a memoization dictionary. -/
def memoInsert [DecidableEq κ] (memo : List (κ × ℚ)) (k : κ) (v : ℚ) : List (κ × ℚ) :=
  (k, v) :: memo

/-! ## `Model.check_valid_matching` (models.py, lines 14-34) -/

/-- The counting pass of `check_valid_matching`: build `locality_usage`
(`[0 for _ in locality_caps]`, then `locality_usage[l] += 1` for every
assigned `l`, with Python subscript semantics). `none` models the
`IndexError` a too-large index raises there. -/
def count_usage (num_localities : ℕ) (matching : Matching) : Option (List ℕ) :=
  matching.foldlM
    (fun (usage : List ℕ) (x : Option ℤ) =>
      match x with
      | none => some usage
      | some l => pyModify usage l (· + 1))
    (List.replicate num_localities 0)

/-- `Model.check_valid_matching`.  Faithful to the source, including the
disjunctive locality-index test `not (l >= 0 or l < len(self.locality_caps))`
on line 26, which is unsatisfiable. -/
def check_valid_matching (num_agents : ℕ) (locality_caps : List ℤ) (matching : Matching) :
    Except PyError Unit :=
  if matching.length ≠ num_agents then .error .valueError
  else if matching.any (fun x =>
      match x with
      | none => false
      | some l => !(decide (0 ≤ l) || decide (l < (locality_caps.length : ℤ)))) then
    .error .valueError
  else
    match count_usage locality_caps.length matching with
    | none => .error .indexError
    | some usage =>
      if locality_caps.enum.any (fun q => decide ((usage.getD q.1 0 : ℤ) > q.2)) then
        .error .valueError
      else .ok ()

/-! ## `AdditiveModel` (models.py, lines 49-74) -/

structure AdditiveModel where
  num_agents : ℕ
  locality_caps : List ℤ
  utility_matrix : List (List ℚ)
deriving DecidableEq, Repr

namespace AdditiveModel

/-- The `assert` statements of `AdditiveModel.__init__`: the matrices an
instance can actually be constructed with. -/
def ctor_ok (m : AdditiveModel) : Prop :=
  m.utility_matrix.length = m.num_agents ∧
  (m.num_agents = 0 ∨ (m.utility_matrix.getD 0 []).length = m.locality_caps.length)

instance (m : AdditiveModel) : Decidable m.ctor_ok := by
  unfold ctor_ok; infer_instance

/-- The body of the summation loop of `AdditiveModel.utility_for_matching`:
skip unassigned agents, otherwise add `utility_matrix[i][l]`. -/
def sum_step (m : AdditiveModel) (utility : ℚ) (q : ℕ × Option ℤ) : Except PyError ℚ :=
  match q.2 with
  | none => .ok utility
  | some l =>
    match pyGet m.utility_matrix (q.1 : ℤ) with
    | none => .error .indexError
    | some row =>
      match pyGet row l with
      | none => .error .indexError
      | some v => .ok (utility + v)

/-- The summation loop of `AdditiveModel.utility_for_matching`. -/
def utility_sum (m : AdditiveModel) (matching : Matching) : Except PyError ℚ :=
  matching.enum.foldlM m.sum_step 0

/-- `AdditiveModel.utility_for_matching`: validate, then add up the matrix
entries of the assigned pairs. -/
def utility_for_matching (m : AdditiveModel) (matching : Matching) : Except PyError ℚ :=
  match check_valid_matching m.num_agents m.locality_caps matching with
  | .error e => .error e
  | .ok _ => m.utility_sum matching

/-- The call `model.utility_for_matching(matching, False)` appearing at the
end of each optimizer in methods.py (lines 46-47, 99, 128).  Every model
class declares `utility_for_matching(self, matching)` with a single
parameter, so the two-positional-argument call raises `TypeError` before any
body runs, whatever the argument is. -/
def utility_for_matching2 (_m : AdditiveModel) (_arg : α) (_flag : Bool) : Except PyError ℚ :=
  .error .typeError

end AdditiveModel

/-! ## `greedy_algorithm` (methods.py, lines 7-47)

The greedy search is generic in the model, exactly as the Python function is:
the model is represented by its `utility_for_matching` method, a state
transformer `u : σ → Matching → Except PyError (ℚ × σ)` (the state `σ` holds
the model's mutable memoization caches and the position in the random
stream; for the deterministic `AdditiveModel`, `σ = Unit`). -/

/-- The agents `i` with `locality_per_agent[i] is None`, in index order
(the outer loop of the pair enumeration, methods.py lines 25-27). -/
def unassignedAgents (m : Matching) : List ℕ :=
  (List.range m.length).filter (fun i => decide (m.getD i none = none))

/-- The localities `l` with `caps_remaining[l] > 0`, in index order
(the inner loop of the pair enumeration, methods.py lines 29-31). -/
def openLocalities (caps : List ℤ) : List ℕ :=
  (List.range caps.length).filter (fun l => decide (0 < caps.getD l 0))

/-- All (agent, locality) pairs the iteration tries, in the order the nested
loops visit them: agent-index-major, locality-index-minor. -/
def candidates (m : Matching) (caps : List ℤ) : List (ℕ × ℕ) :=
  (unassignedAgents m).flatMap (fun i => (openLocalities caps).map (fun l => (i, l)))

/-- The value a tentative assignment of pair `p` is scored with, when the
model's utility is the pure function `f`. -/
def selVal (f : Matching → ℚ) (m : Matching) (p : ℕ × ℕ) : ℚ :=
  f (m.set p.1 (some (p.2 : ℤ)))

/-- The body of the pair-selection loop (methods.py lines 23-39): try each
candidate pair on the working matching, keep the strictly best so far.
`best_value` starts at `-inf`, embedded as `(⊥ : WithBot ℚ)`. -/
def select_go (u : σ → Matching → Except PyError (ℚ × σ)) (m : Matching) :
    List (ℕ × ℕ) → Option (ℕ × ℕ) × WithBot ℚ × σ →
      Except PyError (Option (ℕ × ℕ) × WithBot ℚ × σ)
  | [], acc => .ok acc
  | p :: rest, acc =>
    match u acc.2.2 (m.set p.1 (some (p.2 : ℤ))) with
    | .error e => .error e
    | .ok (utility, st) =>
      if acc.2.1 < (utility : WithBot ℚ) then select_go u m rest (some p, (utility : WithBot ℚ), st)
      else select_go u m rest (acc.1, acc.2.1, st)

/-- One full selection pass over all candidate pairs. -/
def selectBest (u : σ → Matching → Except PyError (ℚ × σ)) (st : σ) (m : Matching)
    (caps : List ℤ) : Except PyError (Option (ℕ × ℕ) × WithBot ℚ × σ) :=
  select_go u m (candidates m caps) (none, ⊥, st)

/-- One iteration of the greedy loop: select the best pair, `assert` that one
was found (methods.py line 41, `Except.error .assertionError` if not), and
commit it (lines 42-44). -/
def greedyIter (u : σ → Matching → Except PyError (ℚ × σ))
    (s : Matching × List ℤ × σ) : Except PyError (Matching × List ℤ × σ) :=
  match selectBest u s.2.2 s.1 s.2.1 with
  | .error e => .error e
  | .ok (none, _, _) => .error .assertionError
  | .ok (some p, _, st) =>
    .ok (s.1.set p.1 (some (p.2 : ℤ)), s.2.1.set p.2 (s.2.1.getD p.2 0 - 1), st)

/-- The `for _ in range(...)` loop of the greedy algorithm. -/
def greedyLoop (u : σ → Matching → Except PyError (ℚ × σ)) :
    ℕ → Matching × List ℤ × σ → Except PyError (Matching × List ℤ × σ)
  | 0, s => .ok s
  | n + 1, s =>
    match greedyIter u s with
    | .error e => .error e
    | .ok s' => greedyLoop u n s'

/-- `min(model.num_agents, sum(caps_remaining))`, the iteration count of
methods.py line 22 (a `range` of a negative int is empty, hence `toNat`). -/
def greedy_iterations (num_agents : ℕ) (caps : List ℤ) : ℕ :=
  (min (num_agents : ℤ) caps.sum).toNat

/-- The search phase of `greedy_algorithm` (methods.py lines 19-44): start
from the all-`None` matching and full capacities and run the loop. -/
def greedy_search (u : σ → Matching → Except PyError (ℚ × σ)) (num_agents : ℕ)
    (caps : List ℤ) (st : σ) : Except PyError (Matching × List ℤ × σ) :=
  greedyLoop u (greedy_iterations num_agents caps)
    (List.replicate num_agents (none : Option ℤ), caps, st)

/-- All of `greedy_algorithm`: the search phase followed by the final
`return locality_per_agent, model.utility_for_matching(locality_per_agent, False)`
(methods.py lines 46-47), whose two-positional-argument call is `u2`. -/
def greedy_algorithm (u : σ → Matching → Except PyError (ℚ × σ))
    (u2 : σ → Matching → Bool → Except PyError (ℚ × σ)) (num_agents : ℕ) (caps : List ℤ)
    (st : σ) : Except PyError (Matching × ℚ) :=
  match greedy_search u num_agents caps st with
  | .error e => .error e
  | .ok (m, _, st) =>
    match u2 st m false with
    | .error e => .error e
    | .ok (v, _) => .ok (m, v)

/-- A stateless, total utility function, as a model for the greedy search. -/
def pureU (f : Matching → ℚ) : σ → Matching → Except PyError (ℚ × σ) :=
  fun st m => .ok (f m, st)

/-- `AdditiveModel.utility_for_matching` in the shape the optimizers consume. -/
def AdditiveModel.u (m : AdditiveModel) : Unit → Matching → Except PyError (ℚ × Unit) :=
  fun st mat =>
    match m.utility_for_matching mat with
    | .error e => .error e
    | .ok v => .ok (v, st)

/-- The two-positional-argument call, ditto. -/
def AdditiveModel.u2 (m : AdditiveModel) : Unit → Matching → Bool → Except PyError (ℚ × Unit) :=
  fun _ mat flag =>
    match m.utility_for_matching2 mat flag with
    | .error e => .error e
    | .ok v => .ok (v, ())

/-- `greedy_algorithm(model)` for an `AdditiveModel` instance. -/
def AdditiveModel.greedy (m : AdditiveModel) : Except PyError (Matching × ℚ) :=
  greedy_algorithm m.u m.u2 m.num_agents m.locality_caps ()

/-! ## `additive_optimization` (methods.py, lines 50-99)

The Gurobi solver is external (spec §6): it is modelled as a black box that
hands back a solution status and a value for each binary decision variable
`m_{i}_{l}`; theorems about optimality hypothesize the solver contract (the
returned point maximizes the stated integer program). -/

/-- The marginal utility the objective coefficients are built from
(methods.py lines 71-73): the utility of the matching that assigns exactly
agent `i` to locality `l`. -/
def marginal (m : AdditiveModel) (i l : ℕ) : Except PyError ℚ :=
  m.utility_for_matching ((List.replicate m.num_agents (none : Option ℤ)).set i (some (l : ℤ)))

/-- The marginal-utility collection pass of `additive_optimization`
(the nested loops of lines 68-83): every `(i, l)` pair is queried in order;
a raised exception propagates. -/
def collect_marginals (m : AdditiveModel) : Except PyError (List (List ℚ)) :=
  (List.range m.num_agents).foldlM
    (fun (acc : List (List ℚ)) i =>
      match (List.range m.locality_caps.length).foldlM
          (fun (row : List ℚ) l =>
            match marginal m i l with
            | .error e => Except.error e
            | .ok v => Except.ok (row ++ [v]))
          [] with
      | .error e => Except.error e
      | .ok row => Except.ok (acc ++ [row]))
    []

/-- The read-back loop (methods.py lines 93-97): for each agent, the first
locality whose variable exceeds 0.5, or `None`. -/
def read_back (sol : ℕ → ℕ → ℚ) (num_agents num_localities : ℕ) : Matching :=
  (List.range num_agents).map
    (fun i => ((List.range num_localities).find? (fun l => decide ((1 : ℚ)/2 < sol i l))).map
      (fun l => (l : ℤ)))

/-- `additive_optimization(model)` for an `AdditiveModel`: collect marginals,
assert the solver reported an optimal solution (line 92), read the matching
back, and return it with the two-positional-argument utility call (line 99).
`status_optimal` and `sol` are the solver's report. -/
def additive_optimization (m : AdditiveModel) (status_optimal : Bool) (sol : ℕ → ℕ → ℚ) :
    Except PyError (Matching × ℚ) :=
  match collect_marginals m with
  | .error e => .error e
  | .ok _ =>
    if !status_optimal then .error .assertionError
    else
      match m.utility_for_matching2 (read_back sol m.num_agents m.locality_caps.length) false with
      | .error e => .error e
      | .ok v => .ok (read_back sol m.num_agents m.locality_caps.length, v)

/-- Feasibility of a solver point for the integer program of methods.py
lines 75-87: binary variables, at most one locality per agent, at most
`cap` agents per locality. -/
def IPfeasible (m : AdditiveModel) (x : ℕ → ℕ → ℚ) : Prop :=
  (∀ i < m.num_agents, ∀ l < m.locality_caps.length, x i l = 0 ∨ x i l = 1) ∧
  (∀ i < m.num_agents,
    ((List.range m.locality_caps.length).map (fun l => x i l)).sum ≤ 1) ∧
  (∀ l < m.locality_caps.length,
    ((List.range m.num_agents).map (fun i => x i l)).sum ≤ m.locality_caps.getD l 0)

/-- The objective of methods.py line 80: `sum of marginal(i, l) * x i l`
(on the instances considered every marginal is defined, so the `getD 0`
default is never exercised). -/
def IPvalue (m : AdditiveModel) (x : ℕ → ℕ → ℚ) : ℚ :=
  ((List.range m.num_agents).map
    (fun i => ((List.range m.locality_caps.length).map
      (fun l => ((marginal m i l).toOption.getD 0) * x i l)).sum)).sum

/-- The solver contract of spec §6: the returned point is feasible and
maximizes the objective. -/
def IPoptimal (m : AdditiveModel) (x : ℕ → ℕ → ℚ) : Prop :=
  IPfeasible m x ∧ ∀ y, IPfeasible m y → IPvalue m y ≤ IPvalue m x

/-! ## `best_of_random` (methods.py, lines 102-128)

`randrange(n)` is embedded as `rng k % n` where `rng : ℕ → ℕ` is the stream
of draws of the external generator and `k` a consumption counter; the two
unbounded retry loops carry explicit fuel (`PyError.nonTermination` on
exhaustion, never reached in the runs considered here). -/

/-- The inner `while True` loop: redraw a locality until one with remaining
capacity comes up. -/
def pick_locality (caps : List ℤ) (rng : ℕ → ℕ) : ℕ → ℕ → Except PyError (ℕ × ℕ)
  | 0, _ => .error .nonTermination
  | fuel + 1, ctr =>
    let l := rng ctr % caps.length
    if 0 < caps.getD l 0 then .ok (l, ctr + 1)
    else pick_locality caps rng fuel (ctr + 1)

/-- The `while pairs_remaining > 0` loop of one trial (methods.py lines
111-121): draw an agent, skip her if already matched, place her in a
randomly drawn open locality. -/
def trial_loop (num_agents : ℕ) (rng : ℕ → ℕ) :
    ℕ → Matching × List ℤ × ℕ × ℕ → Except PyError (Matching × ℕ)
  | 0, _ => .error .nonTermination
  | fuel + 1, (m, caps, pairs, ctr) =>
    if pairs = 0 then .ok (m, ctr)
    else
      let i := rng ctr % num_agents
      if m.getD i none ≠ none then trial_loop num_agents rng fuel (m, caps, pairs, ctr + 1)
      else
        match pick_locality caps rng fuel (ctr + 1) with
        | .error e => .error e
        | .ok (l, ctr') =>
          trial_loop num_agents rng fuel
            (m.set i (some (l : ℤ)), caps.set l (caps.getD l 0 - 1), pairs - 1, ctr')

/-- `best_of_random(model, trials)`: generate `trials` random feasible
matchings, score each, keep the strictly best (`best_utility` starts at
`-inf`, `best_matching` at `None`), and finish with the two-positional-
argument utility call of line 128. -/
def best_of_random (u : σ → Matching → Except PyError (ℚ × σ))
    (u2 : σ → Option Matching → Bool → Except PyError (ℚ × σ)) (num_agents : ℕ)
    (caps : List ℤ) (trials : ℕ) (rng : ℕ → ℕ) (fuel : ℕ) (st : σ) :
    Except PyError (Option Matching × ℚ) :=
  match (List.range trials).foldlM
      (fun (acc : Option Matching × WithBot ℚ × ℕ × σ) _ =>
        match trial_loop num_agents rng fuel
            (List.replicate num_agents (none : Option ℤ), caps,
              greedy_iterations num_agents caps, acc.2.2.1) with
        | .error e => Except.error e
        | .ok (matching, ctr) =>
          match u acc.2.2.2 matching with
          | .error e => Except.error e
          | .ok (utility, st) =>
            if acc.2.1 < (utility : WithBot ℚ) then
              Except.ok (some matching, (utility : WithBot ℚ), ctr, st)
            else Except.ok (acc.1, acc.2.1, ctr, st))
      (none, ⊥, 0, st) with
  | .error e => .error e
  | .ok (best_matching, _, _, st) =>
    match u2 st best_matching false with
    | .error e => .error e
    | .ok (v, _) => .ok (best_matching, v)

/-- The two-positional-argument call with an `Option Matching` argument
(`best_matching` can still be `None` when `trials == 0`); it raises
`TypeError` regardless. -/
def AdditiveModel.u2opt (m : AdditiveModel) :
    Unit → Option Matching → Bool → Except PyError (ℚ × Unit) :=
  fun _ arg flag =>
    match m.utility_for_matching2 arg flag with
    | .error e => .error e
    | .ok v => .ok (v, ())

/-! ## `CoordinationModel` (models.py, lines 214-292)

State threaded through evaluations: the per-locality memoization dictionaries
(`self._memoization`, an association list keyed by the sorted agent tuple)
and the position in the `random()` stream. -/

/-- Memoization caches plus random-stream position of a `CoordinationModel`. -/
abbrev CoordState := List (List (List ℕ × ℚ)) × ℕ

structure CoordinationModel where
  num_agents : ℕ
  locality_caps : List ℤ
  locality_num_jobs : List ℤ
  compatibility_probabilities : List (List (List ℚ))
  random_samples : ℕ

namespace CoordinationModel

/-- `self._memoization = [{} for _ in locality_caps]` and a fresh stream. -/
def initState (M : CoordinationModel) : CoordState :=
  (List.replicate M.locality_caps.length [], 0)

/-- The edge-drawing loops of `_utility_at_locality` (models.py lines
265-269): for each agent and job, draw `random()` and keep the edge when the
draw is below `compatibility_probabilities[i][l][j]`.  Returns the edge list
and the advanced stream position. -/
def draw_edges (M : CoordinationModel) (stream : ℕ → ℚ) (l : ℕ) (agents : List ℕ)
    (num_jobs : ℕ) (ctr : ℕ) : Except PyError (List (ℕ × ℕ) × ℕ) :=
  agents.foldlM
    (fun (acc : List (ℕ × ℕ) × ℕ) (i : ℕ) =>
      (List.range num_jobs).foldlM
        (fun (acc2 : List (ℕ × ℕ) × ℕ) (j : ℕ) =>
          match pyGet M.compatibility_probabilities (i : ℤ) with
          | none => Except.error PyError.indexError
          | some rows =>
            match pyGet rows (l : ℤ) with
            | none => Except.error PyError.indexError
            | some row =>
              match pyGet row (j : ℤ) with
              | none => Except.error PyError.indexError
              | some probability =>
                if stream acc2.2 < probability then
                  Except.ok (acc2.1 ++ [((i, M.num_agents + j) : ℕ × ℕ)], acc2.2 + 1)
                else Except.ok (acc2.1, acc2.2 + 1))
        acc)
    ([], ctr)

/-- One Monte-Carlo draw of `_utility_at_locality` (models.py lines 259-274):
build the random bipartite graph and ask the external igraph routine
(`oracle`, spec §6) for the size of a maximum matching.  The node-type list
is `[0] * num_agents + [1] * num_jobs`. -/
def one_sample (M : CoordinationModel) (oracle : List ℕ → List (ℕ × ℕ) → ℕ)
    (stream : ℕ → ℚ) (l : ℕ) (agents : List ℕ) (ctr : ℕ) : Except PyError (ℕ × ℕ) :=
  match pyGet M.locality_num_jobs (l : ℤ) with
  | none => Except.error .indexError
  | some nj =>
    match draw_edges M stream l agents nj.toNat ctr with
    | .error e => Except.error e
    | .ok (edges, ctr') =>
      Except.ok (oracle (List.replicate M.num_agents 0 ++ List.replicate nj.toNat 1) edges, ctr')

/-- `CoordinationModel._utility_at_locality` (models.py lines 253-277): sort
the agents, look the tuple up in the locality's cache, otherwise average
`random_samples` draws and store the result. -/
def utility_at_locality (M : CoordinationModel) (oracle : List ℕ → List (ℕ × ℕ) → ℕ)
    (stream : ℕ → ℚ) (s : CoordState) (l : ℕ) (agents : List ℕ) :
    Except PyError (ℚ × CoordState) :=
  match pyGet s.1 (l : ℤ) with
  | none => Except.error .indexError
  | some memo_l =>
    match memoLookup memo_l (pySorted agents) with
    | some v => Except.ok (v, s)
    | none =>
      match (List.range M.random_samples).foldlM
          (fun (acc : ℚ × ℕ) _ =>
            match M.one_sample oracle stream l (pySorted agents) acc.2 with
            | Except.error e => Except.error e
            | Except.ok (card, ctr') => Except.ok (acc.1 + (card : ℚ), ctr'))
          ((0 : ℚ), s.2) with
      | .error e => Except.error e
      | .ok (sum_utilities, ctr') =>
        Except.ok (sum_utilities / (M.random_samples : ℚ),
          (s.1.set l (memoInsert memo_l (pySorted agents) (sum_utilities / (M.random_samples : ℚ))),
            ctr'))

/-- The grouping pass of `utility_for_matching` (models.py lines 283-286):
`agents_per_locality[l].append(i)` for each assigned agent. -/
def group_by_locality (num_localities : ℕ) (matching : Matching) :
    Except PyError (List (List ℕ)) :=
  matching.enum.foldlM
    (fun (apl : List (List ℕ)) (q : ℕ × Option ℤ) =>
      match q.2 with
      | none => Except.ok apl
      | some l => ofOption (pyModify apl l (fun lst => lst ++ [q.1])) .indexError)
    (List.replicate num_localities [])

/-- `CoordinationModel.utility_for_matching` (models.py lines 280-292),
including the double loop of lines 289-291 that adds
`_utility_at_locality(l, ...)` once per locality *per random sample*. -/
def utility_for_matching (M : CoordinationModel) (oracle : List ℕ → List (ℕ × ℕ) → ℕ)
    (stream : ℕ → ℚ) (s : CoordState) (matching : Matching) :
    Except PyError (ℚ × CoordState) :=
  match check_valid_matching M.num_agents M.locality_caps matching with
  | .error e => Except.error e
  | .ok _ =>
    match group_by_locality M.locality_caps.length matching with
    | .error e => Except.error e
    | .ok agents_per_locality =>
      (List.range M.locality_caps.length).foldlM
        (fun (acc : ℚ × CoordState) l =>
          (List.range M.random_samples).foldlM
            (fun (acc2 : ℚ × CoordState) _ =>
              match M.utility_at_locality oracle stream acc2.2 l (agents_per_locality.getD l []) with
              | .error e => Except.error e
              | .ok (v, s') => Except.ok (acc2.1 + v, s'))
            acc)
        ((0 : ℚ), s)

end CoordinationModel

/-! ## `RetroactiveCorrectionModel` (models.py, lines 77-141) -/

/-- Memoization caches (per locality, per profession, keyed by the sorted
probability tuple) plus random-stream position. -/
abbrev ProfMemoState := List (List (List (List ℚ × ℚ))) × ℕ

structure RetroactiveCorrectionModel where
  num_agents : ℕ
  locality_caps : List ℤ
  num_professions : ℕ
  professions : List ℤ
  qualification_probabilities : List (List ℚ)
  correction_functions : List (List (ℕ → ℚ))
  random_samples : ℕ

namespace RetroactiveCorrectionModel

/-- `self._memoization = [[{} for _ in range(num_professions)] for _ in locality_caps]`. -/
def initState (M : RetroactiveCorrectionModel) : ProfMemoState :=
  (List.replicate M.locality_caps.length (List.replicate M.num_professions []), 0)

/-- `probs = tuple(sorted(self.qualification_probabilities[i][l] for i in agents))`. -/
def probs_of (M : RetroactiveCorrectionModel) (l : ℕ) (agents : List ℕ) :
    Except PyError (List ℚ) :=
  match agents.foldlM
      (fun (acc : List ℚ) i =>
        match pyGet M.qualification_probabilities (i : ℤ) with
        | none => Option.none
        | some row =>
          match pyGet row (l : ℤ) with
          | none => Option.none
          | some q => Option.some (acc ++ [q]))
      [] with
  | none => Except.error .indexError
  | some probsList => Except.ok (pySorted probsList)

/-- One Monte-Carlo draw (models.py lines 119-123): count the qualifying
agents, then apply `correction_functions[l][p]` to the count. -/
def one_sample (M : RetroactiveCorrectionModel) (stream : ℕ → ℚ) (l p : ℕ)
    (probs : List ℚ) (ctr : ℕ) : Except PyError (ℚ × ℕ) :=
  let drawn := probs.foldl
    (fun (nq : ℕ × ℕ) prob =>
      if stream nq.2 < prob then (nq.1 + 1, nq.2 + 1) else (nq.1, nq.2 + 1))
    (0, ctr)
  match pyGet M.correction_functions (l : ℤ) with
  | none => Except.error .indexError
  | some crow =>
    match pyGet crow (p : ℤ) with
    | none => Except.error .indexError
    | some cf => Except.ok (cf drawn.1, drawn.2)

/-- `RetroactiveCorrectionModel._utility_at_locality_profession` (models.py
lines 112-126). -/
def utility_at_locality_profession (M : RetroactiveCorrectionModel) (stream : ℕ → ℚ)
    (s : ProfMemoState) (l p : ℕ) (agents : List ℕ) : Except PyError (ℚ × ProfMemoState) :=
  match M.probs_of l agents with
  | .error e => Except.error e
  | .ok probs =>
    match pyGet s.1 (l : ℤ) with
    | none => Except.error .indexError
    | some memo_row =>
      match pyGet memo_row (p : ℤ) with
      | none => Except.error .indexError
      | some memo_lp =>
        match memoLookup memo_lp probs with
        | some v => Except.ok (v, s)
        | none =>
          match (List.range M.random_samples).foldlM
              (fun (acc : ℚ × ℕ) _ =>
                match M.one_sample stream l p probs acc.2 with
                | Except.error e => Except.error e
                | Except.ok (v, ctr') => Except.ok (acc.1 + v, ctr'))
              ((0 : ℚ), s.2) with
          | .error e => Except.error e
          | .ok (sum_utilities, ctr') =>
            Except.ok (sum_utilities / (M.random_samples : ℚ),
              (s.1.set l (memo_row.set p
                (memoInsert memo_lp probs (sum_utilities / (M.random_samples : ℚ)))), ctr'))

/-- The grouping pass shared by the profession-aware models (models.py lines
131-135 and 201-205): `agents_per_locality_profession[l][p].append(i)`, with
`p = professions[i]`. -/
def group_by_locality_profession (num_localities num_professions : ℕ)
    (professions : List ℤ) (matching : Matching) : Except PyError (List (List (List ℕ))) :=
  matching.enum.foldlM
    (fun (alp : List (List (List ℕ))) (q : ℕ × Option ℤ) =>
      match q.2 with
      | none => Except.ok alp
      | some l =>
        match pyGet professions (q.1 : ℤ) with
        | none => Except.error .indexError
        | some p => ofOption (pyModify2 alp l p (fun lst => lst ++ [q.1])) .indexError)
    (List.replicate num_localities (List.replicate num_professions []))

/-- `RetroactiveCorrectionModel.utility_for_matching` (models.py lines
128-141): validate, group, then sum the per-(locality, profession) utilities. -/
def utility_for_matching (M : RetroactiveCorrectionModel) (stream : ℕ → ℚ)
    (s : ProfMemoState) (matching : Matching) : Except PyError (ℚ × ProfMemoState) :=
  match check_valid_matching M.num_agents M.locality_caps matching with
  | .error e => Except.error e
  | .ok _ =>
    match group_by_locality_profession M.locality_caps.length M.num_professions
        M.professions matching with
    | .error e => Except.error e
    | .ok alp =>
      (List.range M.locality_caps.length).foldlM
        (fun (acc : ℚ × ProfMemoState) l =>
          (List.range M.num_professions).foldlM
            (fun (acc2 : ℚ × ProfMemoState) p =>
              match M.utility_at_locality_profession stream acc2.2 l p
                  ((alp.getD l []).getD p []) with
              | .error e => Except.error e
              | .ok (v, s') => Except.ok (acc2.1 + v, s'))
            acc)
        ((0 : ℚ), s)

end RetroactiveCorrectionModel

/-! ## `InterviewModel` (models.py, lines 144-211)

`random.shuffle` is external; it is modelled as an oracle
`shuffleO : ℕ → List ℚ → List ℚ` indexed by the stream position (one position
is consumed per shuffle call). -/

structure InterviewModel where
  num_agents : ℕ
  locality_caps : List ℤ
  num_professions : ℕ
  professions : List ℤ
  job_numbers : List (List ℤ)
  compatibility_probabilities : List ℚ
  random_samples : ℕ

namespace InterviewModel

/-- `self._memoization = [[{} for _ in range(num_professions)] for _ in locality_caps]`. -/
def initState (M : InterviewModel) : ProfMemoState :=
  (List.replicate M.locality_caps.length (List.replicate M.num_professions []), 0)

/-- `probs = tuple(sorted(self.compatibility_probabilities[i] for i in agents))`. -/
def probs_of (M : InterviewModel) (agents : List ℕ) : Except PyError (List ℚ) :=
  match agents.foldlM
      (fun (acc : List ℚ) i =>
        match pyGet M.compatibility_probabilities (i : ℤ) with
        | none => Option.none
        | some q => Option.some (acc ++ [q]))
      [] with
  | none => Except.error .indexError
  | some probsList => Except.ok (pySorted probsList)

/-- The per-agent application attempt (models.py lines 188-193): up to
`num_jobs` draws of `random() < prob`; the first success hires the agent and
stops the inner loop. -/
def try_agent (stream : ℕ → ℚ) (prob : ℚ) : ℕ → ℕ → Bool × ℕ
  | 0, c => (false, c)
  | n + 1, c => if stream c < prob then (true, c + 1) else try_agent stream prob n (c + 1)

/-- One Monte-Carlo draw (models.py lines 186-193) on an already shuffled
probability list: thread `(num_jobs, hires, stream position)` over the
agents; a hire decrements the remaining job count. -/
def one_sample (stream : ℕ → ℚ) (nj : ℤ) (shuffled : List ℚ) (ctr : ℕ) : ℕ × ℕ :=
  let res := shuffled.foldl
    (fun (acc : ℤ × ℕ × ℕ) prob =>
      let t := try_agent stream prob acc.1.toNat acc.2.2
      if t.1 then (acc.1 - 1, acc.2.1 + 1, t.2) else (acc.1, acc.2.1, t.2))
    (nj, 0, ctr)
  (res.2.1, res.2.2)

/-- `InterviewModel._utility_at_locality_profession` (models.py lines
178-196).  `mutable_probs` persists across samples and is reshuffled in
place each draw; each shuffle advances the stream position by one. -/
def utility_at_locality_profession (M : InterviewModel) (shuffleO : ℕ → List ℚ → List ℚ)
    (stream : ℕ → ℚ) (s : ProfMemoState) (l p : ℕ) (agents : List ℕ) :
    Except PyError (ℚ × ProfMemoState) :=
  match M.probs_of agents with
  | .error e => Except.error e
  | .ok probs =>
    match pyGet s.1 (l : ℤ) with
    | none => Except.error .indexError
    | some memo_row =>
      match pyGet memo_row (p : ℤ) with
      | none => Except.error .indexError
      | some memo_lp =>
        match memoLookup memo_lp probs with
        | some v => Except.ok (v, s)
        | none =>
          match (List.range M.random_samples).foldlM
              (fun (acc : ℕ × List ℚ × ℕ) _ =>
                match pyGet M.job_numbers (l : ℤ) with
                | none => Except.error PyError.indexError
                | some row =>
                  match pyGet row (p : ℤ) with
                  | none => Except.error PyError.indexError
                  | some nj =>
                    let shuffled := shuffleO acc.2.2 acc.2.1
                    let r := one_sample stream nj shuffled (acc.2.2 + 1)
                    Except.ok (acc.1 + r.1, shuffled, r.2))
              (0, probs, s.2) with
          | .error e => Except.error e
          | .ok (sum_utilities, _, ctr') =>
            Except.ok ((sum_utilities : ℚ) / (M.random_samples : ℚ),
              (s.1.set l (memo_row.set p
                (memoInsert memo_lp probs ((sum_utilities : ℚ) / (M.random_samples : ℚ)))), ctr'))

/-- `InterviewModel.utility_for_matching` (models.py lines 198-211). -/
def utility_for_matching (M : InterviewModel) (shuffleO : ℕ → List ℚ → List ℚ)
    (stream : ℕ → ℚ) (s : ProfMemoState) (matching : Matching) :
    Except PyError (ℚ × ProfMemoState) :=
  match check_valid_matching M.num_agents M.locality_caps matching with
  | .error e => Except.error e
  | .ok _ =>
    match RetroactiveCorrectionModel.group_by_locality_profession M.locality_caps.length
        M.num_professions M.professions matching with
    | .error e => Except.error e
    | .ok alp =>
      (List.range M.locality_caps.length).foldlM
        (fun (acc : ℚ × ProfMemoState) l =>
          (List.range M.num_professions).foldlM
            (fun (acc2 : ℚ × ProfMemoState) p =>
              match M.utility_at_locality_profession shuffleO stream acc2.2 l p
                  ((alp.getD l []).getD p []) with
              | .error e => Except.error e
              | .ok (v, s') => Except.ok (acc2.1 + v, s'))
            acc)
        ((0 : ℚ), s)

end InterviewModel


/-! ## Concrete instances used in the theorems -/

/-- The 3-agent, 2-locality instance of spec §8. -/
def addC7 : AdditiveModel := AdditiveModel.mk 3 [1, 1] [[4, 1], [1, 4], [2, 2]]

/-- The unique optimum of the C7 integer program, as a solver report. -/
def solC7 : ℕ → ℕ → ℚ :=
  fun i l => if (i = 0 ∧ l = 0) ∨ (i = 1 ∧ l = 1) then 1 else 0

/-- The one-agent, one-locality, one-job, probability-one instance used to
exhibit the `random_samples` scaling of `CoordinationModel`. -/
def coordC3 : CoordinationModel := CoordinationModel.mk 1 [1] [1] [[[1]]] 2

/-- Tiny `RetroactiveCorrectionModel` instance: one agent of profession 0,
qualification probability 1/2, identity correction, one sample. -/
def retroT : RetroactiveCorrectionModel :=
  RetroactiveCorrectionModel.mk 1 [1] 1 [0] [[1/2]] [[fun n => (n : ℚ)]] 1

/-- Tiny `InterviewModel` instance: one agent of profession 0, one job,
compatibility probability 1/2, one sample. -/
def interT : InterviewModel := InterviewModel.mk 1 [1] 1 [0] [[1]] [1/2] 1

/-- The additive instance with a negative matrix entry that the constructor
accepts. -/
def addNeg : AdditiveModel := AdditiveModel.mk 1 [1] [[-1]]

/-! ## The enumeration order of candidate pairs -/

/-- Agent-index-major, locality-index-minor order on (agent, locality) pairs:
the order in which the nested loops of methods.py lines 25-39 encounter
them. -/
def lexLt (p q : ℕ × ℕ) : Prop :=
  p.1 < q.1 ∨ (p.1 = q.1 ∧ p.2 < q.2)

instance : DecidableRel lexLt := fun _ _ => by
  unfold lexLt; infer_instance

/-- The invariant of the pair-selection loop after a processed prefix `P`:
the current best pair is a member of `P` whose value bounds all of `P`, with
everything strictly earlier (in enumeration order) strictly below it; no
best pair means nothing was processed yet and `best_value` is still `-inf`. -/
def selInvP (f : Matching → ℚ) (m : Matching) (P : List (ℕ × ℕ))
    (b : Option (ℕ × ℕ)) (w : WithBot ℚ) : Prop :=
  match b with
  | none => w = ⊥ ∧ P = []
  | some p => p ∈ P ∧ w = (selVal f m p : WithBot ℚ) ∧
      (∀ q ∈ P, (selVal f m q : WithBot ℚ) ≤ w) ∧
      (∀ q ∈ P, lexLt q p → (selVal f m q : WithBot ℚ) < w)

/-! ## Counting the committed pairs -/

/-- Number of agents a matching assigns to locality `l`. -/
def assignedTo (m : Matching) (l : ℕ) : ℕ :=
  (m.filter (fun x => decide (x = some (l : ℤ)))).length

/-- Number of assigned agents of a matching. -/
def countAssigned (m : Matching) : ℕ :=
  (m.filter (fun x => decide (x ≠ none))).length

/-! ## The greedy loop invariant (claims C5, C6, C10 machinery) -/

/-- State invariant of the greedy search over a model with `n` agents and
capacities `caps`: the working matching keeps its length, every assigned
entry is a genuine locality index, and each remaining capacity is the
original capacity minus the number of agents currently assigned there,
never negative.  The last clause tracks the total remaining capacity. -/
def GreedyInv (n : ℕ) (caps : List ℤ) (s : Matching × List ℤ × σ) : Prop :=
  s.1.length = n ∧
  s.2.1.length = caps.length ∧
  (∀ x ∈ s.1, x = none ∨ ∃ l : ℕ, l < caps.length ∧ x = some (l : ℤ)) ∧
  (∀ l < caps.length,
    s.2.1.getD l 0 = caps.getD l 0 - (assignedTo s.1 l : ℤ) ∧ 0 ≤ s.2.1.getD l 0) ∧
  s.2.1.sum = caps.sum - (countAssigned s.1 : ℤ)

section SmokeTests

example : check_valid_matching 2 [1] [some 0, none] = .ok () := by decide

example : check_valid_matching 1 [1] [some 0, some 0] = .error .valueError := by decide

example : check_valid_matching 2 [1] [some 0, some 0] = .error .valueError := by decide

example : check_valid_matching 1 [1, 1] [some (-1)] = .ok () := by decide

example : check_valid_matching 1 [1, 1] [some 5] = .error .indexError := by decide

example :
    (AdditiveModel.mk 2 [1, 1] [[4, 1], [1, 4]]).utility_for_matching [some 0, some 1] =
      .ok 8 := by
  with_unfolding_all rfl

example : candidates [none, some 0, none] [1, 0] = [(0, 0), (2, 0)] := by decide

example :
    greedy_search addC7.u addC7.num_agents addC7.locality_caps () =
      .ok ([some 0, some 1, none], [0, 0], ()) := by
  with_unfolding_all rfl

example : addC7.greedy = .error .typeError := by with_unfolding_all rfl

example : additive_optimization addC7 true solC7 = .error .typeError := by
  with_unfolding_all rfl

example : read_back solC7 3 2 = [some 0, some 1, none] := by with_unfolding_all rfl

example :
    best_of_random addC7.u addC7.u2opt addC7.num_agents addC7.locality_caps 0 (fun _ => 0) 5 () =
      .error .typeError := by
  with_unfolding_all rfl

example : IPfeasible addC7 solC7 := by
  refine ⟨?_, ?_, ?_⟩ <;> with_unfolding_all decide

example : IPvalue addC7 solC7 = 8 := by with_unfolding_all rfl

example :
    coordC3.utility_at_locality (fun _ es => es.length) (fun _ => 0) coordC3.initState 0 [0] =
      .ok (1, ([[([0], 1)]], 2)) := by
  with_unfolding_all rfl

example :
    coordC3.utility_for_matching (fun _ es => es.length) (fun _ => 0) coordC3.initState
      [some 0] = .ok (2, ([[([0], 1)]], 2)) := by
  with_unfolding_all rfl

example :
    retroT.utility_at_locality_profession (fun _ => 0) retroT.initState 0 0 [0] =
      .ok (1, ([[[([1/2], 1)]]], 1)) := by
  with_unfolding_all rfl

example :
    interT.utility_at_locality_profession (fun _ probs => probs) (fun _ => 0)
      interT.initState 0 0 [0] = .ok (1, ([[[([1/2], 1)]]], 2)) := by
  with_unfolding_all rfl

end SmokeTests

lemma lexLt_irrefl (p : ℕ × ℕ) : ¬ lexLt p p := by
  simp [lexLt]

lemma lexLt_asymm {p q : ℕ × ℕ} (h : lexLt p q) : ¬ lexLt q p := by
  rcases h with h | ⟨h1, h2⟩ <;> rintro (h' | ⟨h1', h2'⟩) <;> omega

lemma lexLt_total (p q : ℕ × ℕ) : lexLt p q ∨ p = q ∨ lexLt q p := by
  rcases p with ⟨a, b⟩; rcases q with ⟨c, d⟩
  simp only [lexLt, Prod.mk.injEq]
  omega

/-! ## Lemmas about the Python-subscript embedding -/

lemma pyIdx_coe {len k : ℕ} (h : k < len) : pyIdx len (k : ℤ) = some k := by
  simp only [pyIdx, Int.natCast_nonneg, if_true, Int.toNat_natCast]
  rw [if_pos (by exact_mod_cast h)]

lemma pyGet_coe {xs : List α} {k : ℕ} (h : k < xs.length) : pyGet xs (k : ℤ) = xs.get? k := by
  simp only [pyGet, pyIdx_coe h]

lemma pyGet_coe_some {xs : List α} {k : ℕ} {a : α} (h : pyGet xs (k : ℤ) = some a) :
    k < xs.length ∧ xs.get? k = some a := by
  by_cases hk : k < xs.length
  · exact ⟨hk, by rwa [pyGet_coe hk] at h⟩
  · exfalso
    simp only [pyGet, pyIdx, Int.natCast_nonneg, if_true] at h
    rw [if_neg (by exact_mod_cast hk)] at h
    exact Option.noConfusion h

lemma pyGet_set_self {xs : List α} {k : ℕ} (h : k < xs.length) (a : α) :
    pyGet (xs.set k a) (k : ℤ) = some a := by
  rw [pyGet_coe (by simpa using h)]
  simp [List.get?_eq_getElem?, List.getElem?_set_self', h]

lemma pyModify_coe {xs : List α} {k : ℕ} {a : α} (h : xs.get? k = some a) (f : α → α) :
    pyModify xs (k : ℤ) f = some (xs.set k (f a)) := by
  have hk : k < xs.length := List.get?_eq_some.mp h |>.1
  simp only [pyModify, pyIdx_coe hk, h]

lemma memoLookup_insert_self [DecidableEq κ] (memo : List (κ × ℚ)) (k : κ) (v : ℚ) :
    memoLookup (memoInsert memo k v) k = some v := by
  simp [memoLookup, memoInsert, List.find?_cons_of_pos]

/-! ## Memoization idempotence (claim C9 machinery) -/

lemma retro_memo_idem (M : RetroactiveCorrectionModel) (stream : ℕ → ℚ) (s : ProfMemoState)
    (l p : ℕ) (agents : List ℕ) (v : ℚ) (s₁ : ProfMemoState)
    (h : M.utility_at_locality_profession stream s l p agents = .ok (v, s₁)) :
    M.utility_at_locality_profession stream s₁ l p agents = .ok (v, s₁) := by
  unfold RetroactiveCorrectionModel.utility_at_locality_profession at h ⊢
  cases hp : M.probs_of l agents with
  | error e => simp only [hp] at h; exact Except.noConfusion h
  | ok probs =>
    simp only [hp] at h
    cases hg : pyGet s.1 (l : ℤ) with
    | none => simp only [hg] at h; exact Except.noConfusion h
    | some memo_row =>
      simp only [hg] at h
      have hl : l < s.1.length := (pyGet_coe_some hg).1
      cases hg2 : pyGet memo_row (p : ℤ) with
      | none => simp only [hg2] at h; exact Except.noConfusion h
      | some memo_lp =>
        simp only [hg2] at h
        have hp2 : p < memo_row.length := (pyGet_coe_some hg2).1
        cases hm : memoLookup memo_lp probs with
        | some v0 =>
          simp only [hm] at h
          obtain ⟨hv, hs⟩ := Prod.mk.injEq .. ▸ (Except.ok.injEq .. ▸ h)
          subst hv; subst hs
          simp only [hg, hg2, hm]
        | none =>
          simp only [hm] at h
          cases hf : (List.range M.random_samples).foldlM
              (fun (acc : ℚ × ℕ) _ =>
                match M.one_sample stream l p probs acc.2 with
                | Except.error e => Except.error e
                | Except.ok (v, ctr') => Except.ok (acc.1 + v, ctr'))
              ((0 : ℚ), s.2) with
          | error e => simp only [hf] at h; exact Except.noConfusion h
          | ok r =>
            simp only [hf] at h
            obtain ⟨hv, hs⟩ := Prod.mk.injEq .. ▸ (Except.ok.injEq .. ▸ h)
            subst hv
            rw [← hs]
            simp only [pyGet_set_self hl, pyGet_set_self hp2, memoLookup_insert_self]

lemma interview_memo_idem (M : InterviewModel) (shuffleO : ℕ → List ℚ → List ℚ)
    (stream : ℕ → ℚ) (s : ProfMemoState) (l p : ℕ) (agents : List ℕ) (v : ℚ)
    (s₁ : ProfMemoState)
    (h : M.utility_at_locality_profession shuffleO stream s l p agents = .ok (v, s₁)) :
    M.utility_at_locality_profession shuffleO stream s₁ l p agents = .ok (v, s₁) := by
  unfold InterviewModel.utility_at_locality_profession at h ⊢
  cases hp : M.probs_of agents with
  | error e => simp only [hp] at h; exact Except.noConfusion h
  | ok probs =>
    simp only [hp] at h
    cases hg : pyGet s.1 (l : ℤ) with
    | none => simp only [hg] at h; exact Except.noConfusion h
    | some memo_row =>
      simp only [hg] at h
      have hl : l < s.1.length := (pyGet_coe_some hg).1
      cases hg2 : pyGet memo_row (p : ℤ) with
      | none => simp only [hg2] at h; exact Except.noConfusion h
      | some memo_lp =>
        simp only [hg2] at h
        have hp2 : p < memo_row.length := (pyGet_coe_some hg2).1
        cases hm : memoLookup memo_lp probs with
        | some v0 =>
          simp only [hm] at h
          obtain ⟨hv, hs⟩ := Prod.mk.injEq .. ▸ (Except.ok.injEq .. ▸ h)
          subst hv; subst hs
          simp only [hg, hg2, hm]
        | none =>
          simp only [hm] at h
          cases hf : (List.range M.random_samples).foldlM
              (fun (acc : ℕ × List ℚ × ℕ) _ =>
                match pyGet M.job_numbers (l : ℤ) with
                | none => Except.error PyError.indexError
                | some row =>
                  match pyGet row (p : ℤ) with
                  | none => Except.error PyError.indexError
                  | some nj =>
                    Except.ok (acc.1 + (InterviewModel.one_sample stream nj
                        (shuffleO acc.2.2 acc.2.1) (acc.2.2 + 1)).1,
                      shuffleO acc.2.2 acc.2.1,
                      (InterviewModel.one_sample stream nj (shuffleO acc.2.2 acc.2.1)
                        (acc.2.2 + 1)).2))
              (0, probs, s.2) with
          | error e => simp only [hf] at h; exact Except.noConfusion h
          | ok r =>
            simp only [hf] at h
            obtain ⟨hv, hs⟩ := Prod.mk.injEq .. ▸ (Except.ok.injEq .. ▸ h)
            subst hv
            rw [← hs]
            simp only [pyGet_set_self hl, pyGet_set_self hp2, memoLookup_insert_self]

lemma coord_memo_idem (M : CoordinationModel) (oracle : List ℕ → List (ℕ × ℕ) → ℕ)
    (stream : ℕ → ℚ) (s : CoordState) (l : ℕ) (agents : List ℕ) (v : ℚ) (s₁ : CoordState)
    (h : M.utility_at_locality oracle stream s l agents = .ok (v, s₁)) :
    M.utility_at_locality oracle stream s₁ l agents = .ok (v, s₁) := by
  unfold CoordinationModel.utility_at_locality at h ⊢
  cases hg : pyGet s.1 (l : ℤ) with
  | none => simp only [hg] at h; exact Except.noConfusion h
  | some memo_l =>
    simp only [hg] at h
    have hl : l < s.1.length := (pyGet_coe_some hg).1
    cases hm : memoLookup memo_l (pySorted agents) with
    | some v0 =>
      simp only [hm] at h
      obtain ⟨hv, hs⟩ := Prod.mk.injEq .. ▸ (Except.ok.injEq .. ▸ h)
      subst hv; subst hs
      simp only [hg, hm]
    | none =>
      simp only [hm] at h
      cases hf : (List.range M.random_samples).foldlM
          (fun (acc : ℚ × ℕ) _ =>
            match M.one_sample oracle stream l (pySorted agents) acc.2 with
            | Except.error e => Except.error e
            | Except.ok (card, ctr') => Except.ok (acc.1 + (card : ℚ), ctr'))
          ((0 : ℚ), s.2) with
      | error e => simp only [hf] at h; exact Except.noConfusion h
      | ok r =>
        simp only [hf] at h
        obtain ⟨hv, hs⟩ := Prod.mk.injEq .. ▸ (Except.ok.injEq .. ▸ h)
        subst hv
        rw [← hs]
        simp only [pyGet_set_self hl, memoLookup_insert_self]

/-! ## The greedy selection loop: enumeration facts -/

lemma mem_unassignedAgents {m : Matching} {i : ℕ} :
    i ∈ unassignedAgents m ↔ i < m.length ∧ m.getD i none = none := by
  simp [unassignedAgents, List.mem_filter, List.mem_range]

lemma mem_openLocalities {caps : List ℤ} {l : ℕ} :
    l ∈ openLocalities caps ↔ l < caps.length ∧ 0 < caps.getD l 0 := by
  simp [openLocalities, List.mem_filter, List.mem_range]

lemma mem_candidates {m : Matching} {caps : List ℤ} {p : ℕ × ℕ} :
    p ∈ candidates m caps ↔ p.1 ∈ unassignedAgents m ∧ p.2 ∈ openLocalities caps := by
  rcases p with ⟨i, l⟩
  constructor
  · intro h
    obtain ⟨a, ha, hm⟩ := List.mem_flatMap.mp h
    obtain ⟨b, hb, heq⟩ := List.mem_map.mp hm
    obtain ⟨rfl, rfl⟩ := Prod.mk.injEq .. ▸ heq
    exact ⟨ha, hb⟩
  · rintro ⟨ha, hb⟩
    exact List.mem_flatMap.mpr ⟨i, ha, List.mem_map.mpr ⟨l, hb, rfl⟩⟩

lemma pairwise_unassignedAgents (m : Matching) : (unassignedAgents m).Pairwise (· < ·) :=
  (List.pairwise_lt_range _).sublist (List.filter_sublist _)

lemma pairwise_openLocalities (caps : List ℤ) : (openLocalities caps).Pairwise (· < ·) :=
  (List.pairwise_lt_range _).sublist (List.filter_sublist _)

lemma pairwise_lex_flatMap :
    ∀ (as : List ℕ), as.Pairwise (· < ·) → ∀ (os : List ℕ), os.Pairwise (· < ·) →
      (as.flatMap (fun i => os.map (fun l => (i, l)))).Pairwise lexLt
  | [], _, _, _ => by simp
  | a :: as, h, os, ho => by
    obtain ⟨ha, h'⟩ := List.pairwise_cons.mp h
    rw [List.flatMap_cons, List.pairwise_append]
    refine ⟨?_, pairwise_lex_flatMap as h' os ho, ?_⟩
    · exact ho.map _ (fun l1 l2 hlt => Or.inr ⟨rfl, hlt⟩)
    · intro x hx y hy
      obtain ⟨l, _, rfl⟩ := List.mem_map.mp hx
      obtain ⟨i, hi, hmi⟩ := List.mem_flatMap.mp hy
      obtain ⟨l', _, rfl⟩ := List.mem_map.mp hmi
      exact Or.inl (ha i hi)

lemma pairwise_lex_candidates (m : Matching) (caps : List ℤ) :
    (candidates m caps).Pairwise lexLt :=
  pairwise_lex_flatMap _ (pairwise_unassignedAgents m) _ (pairwise_openLocalities caps)

/-! ## The greedy selection loop: behaviour -/

lemma select_go_mem (u : σ → Matching → Except PyError (ℚ × σ)) (m : Matching)
    (c : List (ℕ × ℕ)) :
    ∀ (acc : Option (ℕ × ℕ) × WithBot ℚ × σ) (p : ℕ × ℕ) (w : WithBot ℚ) (st : σ),
      select_go u m c acc = .ok (some p, w, st) → acc.1 = some p ∨ p ∈ c := by
  induction c with
  | nil =>
    intro acc p w st h
    simp only [select_go] at h
    obtain ⟨hb, _⟩ := Prod.mk.injEq .. ▸ (Except.ok.injEq .. ▸ h)
    exact Or.inl hb
  | cons q rest ih =>
    intro acc p w st h
    simp only [select_go] at h
    cases hu : u acc.2.2 (m.set q.1 (some (q.2 : ℤ))) with
    | error e => simp only [hu] at h; exact Except.noConfusion h
    | ok r =>
      simp only [hu] at h
      by_cases hc : acc.2.1 < (r.1 : WithBot ℚ)
      · rw [if_pos hc] at h
        rcases ih _ p _ _ h with h1 | h2
        · simp only [Option.some.injEq] at h1
          exact Or.inr (by rw [← h1]; exact List.mem_cons_self q rest)
        · exact Or.inr (List.mem_cons_of_mem q h2)
      · rw [if_neg hc] at h
        rcases ih _ p _ _ h with h1 | h2
        · exact Or.inl h1
        · exact Or.inr (List.mem_cons_of_mem q h2)

lemma selInvP_le {f : Matching → ℚ} {m : Matching} {P : List (ℕ × ℕ)}
    {b : Option (ℕ × ℕ)} {w : WithBot ℚ} (hinv : selInvP f m P b w) :
    ∀ q ∈ P, (selVal f m q : WithBot ℚ) ≤ w := by
  cases b with
  | none =>
    obtain ⟨_, hP⟩ := hinv
    subst hP
    intro q hq
    exact absurd hq (List.not_mem_nil q)
  | some p0 => exact hinv.2.2.1

lemma select_go_pure_spec (f : Matching → ℚ) (m : Matching) (c : List (ℕ × ℕ)) :
    ∀ (P : List (ℕ × ℕ)) (b : Option (ℕ × ℕ)) (w : WithBot ℚ) (st : σ),
      (P ++ c).Pairwise lexLt → selInvP f m P b w →
      ∃ b' w', select_go (pureU f) m c (b, w, st) = .ok (b', w', st) ∧
        selInvP f m (P ++ c) b' w' := by
  induction c with
  | nil =>
    intro P b w st _ hinv
    exact ⟨b, w, by simp only [select_go], by simpa using hinv⟩
  | cons p rest ih =>
    intro P b w st hpw hinv
    have hassoc : P ++ p :: rest = (P ++ [p]) ++ rest := by simp
    have hpw' : ((P ++ [p]) ++ rest).Pairwise lexLt := by rwa [← hassoc]
    simp only [select_go, pureU]
    by_cases hc : w < ((f (m.set p.1 (some (p.2 : ℤ)))) : WithBot ℚ)
    · rw [if_pos hc]
      have hc' : w < ((selVal f m p : ℚ) : WithBot ℚ) := hc
      have hinv' : selInvP f m (P ++ [p]) (some p) ((selVal f m p : ℚ) : WithBot ℚ) := by
        refine ⟨List.mem_append_right _ (List.mem_singleton.mpr rfl), rfl, ?_, ?_⟩
        · intro q hq
          rcases List.mem_append.mp hq with hq | hq
          · exact le_of_lt (lt_of_le_of_lt (selInvP_le hinv q hq) hc')
          · rw [List.mem_singleton.mp hq]
        · intro q hq hlt
          rcases List.mem_append.mp hq with hq | hq
          · exact lt_of_le_of_lt (selInvP_le hinv q hq) hc'
          · rw [List.mem_singleton.mp hq] at hlt
            exact absurd hlt (lexLt_irrefl p)
      obtain ⟨b', w', hrun, hinv2⟩ := ih (P ++ [p]) (some p) _ st hpw' hinv'
      exact ⟨b', w', hrun, hassoc ▸ hinv2⟩
    · rw [if_neg hc]
      have hinv' : selInvP f m (P ++ [p]) b w := by
        cases b with
        | none =>
          exfalso
          obtain ⟨hw, _⟩ := hinv
          rw [hw] at hc
          exact hc (WithBot.bot_lt_coe _)
        | some p0 =>
          obtain ⟨hmem, hw, hmax, hfirst⟩ := hinv
          refine ⟨List.mem_append_left _ hmem, hw, ?_, ?_⟩
          · intro q hq
            rcases List.mem_append.mp hq with hq | hq
            · exact hmax q hq
            · rw [List.mem_singleton.mp hq]
              exact not_lt.mp hc
          · intro q hq hlt
            rcases List.mem_append.mp hq with hq | hq
            · exact hfirst q hq hlt
            · exfalso
              rw [List.mem_singleton.mp hq] at hlt
              have hcross := (List.pairwise_append.mp hpw).2.2
              have hp0p : lexLt p0 p := hcross p0 hmem p (List.mem_cons_self p rest)
              exact lexLt_asymm hp0p hlt
      obtain ⟨b', w', hrun, hinv2⟩ := ih (P ++ [p]) b w st hpw' hinv'
      exact ⟨b', w', hrun, hassoc ▸ hinv2⟩

/-- The selection pass with a stateless total utility: it succeeds, leaves
the state unchanged, and its result satisfies the selection invariant over
the full candidate list. -/
lemma selectBest_pure_spec (f : Matching → ℚ) (m : Matching) (caps : List ℤ) (st : σ) :
    ∃ b w, selectBest (pureU f) st m caps = .ok (b, w, st) ∧
      selInvP f m (candidates m caps) b w := by
  obtain ⟨b, w, hrun, hinv⟩ := select_go_pure_spec f m (candidates m caps) [] none ⊥ st
    (by simpa using pairwise_lex_candidates m caps) ⟨rfl, rfl⟩
  exact ⟨b, w, hrun, by simpa using hinv⟩

lemma getD_set_self (xs : List α) (k : ℕ) (v d : α) (h : k < xs.length) :
    (xs.set k v).getD k d = v := by
  simp [List.getD, List.getElem?_set_self', h]

lemma getD_set_ne (xs : List α) (k l : ℕ) (v d : α) (h : k ≠ l) :
    (xs.set k v).getD l d = xs.getD l d := by
  simp [List.getD, List.getElem?_set_ne h]

lemma list_sum_set (xs : List ℤ) (k : ℕ) (v : ℤ) (h : k < xs.length) :
    (xs.set k v).sum = xs.sum - xs.getD k 0 + v := by
  induction xs generalizing k with
  | nil => simp at h
  | cons x rest ih =>
    cases k with
    | zero => simp [List.getD]; ring
    | succ k =>
      simp only [List.set, List.sum_cons, List.getD_cons_succ, ih k (by simpa using h)]
      ring

lemma get?_eq_some_getD {xs : List α} {k : ℕ} (h : k < xs.length) (d : α) :
    xs.get? k = some (xs.getD k d) := by
  simp [List.getD, List.get?_eq_getElem?, List.getElem?_eq_getElem h]

lemma filter_length_set_of_neg (p : α → Bool) :
    ∀ (xs : List α) (k : ℕ) (a b : α), xs.get? k = some a → p a = false →
      ((xs.set k b).filter p).length = (xs.filter p).length + (if p b then 1 else 0)
  | [], k, a, b, h, _ => by simp [List.get?] at h
  | x :: rest, 0, a, b, h, hpa => by
    obtain rfl : x = a := by simpa [List.get?] using h
    by_cases hpb : p b <;> simp [List.filter_cons, hpa, hpb]
  | x :: rest, k + 1, a, b, h, hpa => by
    have ih := filter_length_set_of_neg p rest k a b (by simpa [List.get?] using h) hpa
    by_cases hpx : p x <;> simp [List.set, List.filter_cons, hpx, ih] <;> omega

lemma assignedTo_set (m : Matching) {i : ℕ} (hi : m.get? i = some none) (l : ℕ) :
    assignedTo (m.set i (some (l : ℤ))) l = assignedTo m l + 1 := by
  have := filter_length_set_of_neg (fun x => decide (x = some (l : ℤ))) m i none
    (some (l : ℤ)) hi (by simp)
  simpa [assignedTo] using this

lemma assignedTo_set_ne (m : Matching) {i : ℕ} (hi : m.get? i = some none) {l l' : ℕ}
    (h : l ≠ l') : assignedTo (m.set i (some (l : ℤ))) l' = assignedTo m l' := by
  have := filter_length_set_of_neg (fun x => decide (x = some (l' : ℤ))) m i none
    (some (l : ℤ)) hi (by simp)
  simpa [assignedTo, Option.some.injEq, h, show ((l : ℤ) = (l' : ℤ)) ↔ False by
    exact_mod_cast iff_false_intro h] using this

lemma countAssigned_set (m : Matching) {i : ℕ} (hi : m.get? i = some none) (l : ℕ) :
    countAssigned (m.set i (some (l : ℤ))) = countAssigned m + 1 := by
  have := filter_length_set_of_neg (fun x => decide (x ≠ none)) m i none
    (some (l : ℤ)) hi (by simp)
  simpa [countAssigned] using this

lemma assignedTo_replicate_none (n l : ℕ) :
    assignedTo (List.replicate n (none : Option ℤ)) l = 0 := by
  simp [assignedTo, List.filter_replicate]

lemma countAssigned_replicate_none (n : ℕ) : countAssigned (List.replicate n (none : Option ℤ)) = 0 := by
  induction n with
  | zero => rfl
  | succ k ih => simpa [countAssigned, List.replicate_succ, List.filter_cons] using ih

lemma greedyInv_init (n : ℕ) (caps : List ℤ) (st : σ) (hcaps : ∀ c ∈ caps, 0 ≤ c) :
    GreedyInv n caps (List.replicate n (none : Option ℤ), caps, st) := by
  refine ⟨List.length_replicate .., rfl, ?_, ?_, ?_⟩
  · intro x hx
    exact Or.inl (List.eq_of_mem_replicate hx)
  · intro l hl
    rw [assignedTo_replicate_none]
    refine ⟨by ring, ?_⟩
    have hg : caps.get? l = some (caps.getD l 0) := get?_eq_some_getD hl 0
    exact hcaps _ (List.get?_mem hg)
  · rw [countAssigned_replicate_none]; ring

/-- Unpack a successful greedy iteration: the committed pair is one of the
candidate pairs (whatever the model's utility does), and the state is
updated exactly as methods.py lines 42-44 do. -/
lemma greedyIter_ok_elim {u : σ → Matching → Except PyError (ℚ × σ)}
    {s s' : Matching × List ℤ × σ} (h : greedyIter u s = .ok s') :
    ∃ p ∈ candidates s.1 s.2.1, ∃ st₂,
      s' = (s.1.set p.1 (some (p.2 : ℤ)), s.2.1.set p.2 (s.2.1.getD p.2 0 - 1), st₂) := by
  unfold greedyIter at h
  cases hs : selectBest u s.2.2 s.1 s.2.1 with
  | error e => rw [hs] at h; exact Except.noConfusion h
  | ok r =>
    rw [hs] at h
    rcases r with ⟨b, w, st₂⟩
    cases b with
    | none => exact Except.noConfusion h
    | some p =>
      have hmem : p ∈ candidates s.1 s.2.1 := by
        rcases select_go_mem u s.1 (candidates s.1 s.2.1) (none, ⊥, s.2.2) p w st₂ hs
          with h1 | h2
        · exact Option.noConfusion h1
        · exact h2
      exact ⟨p, hmem, st₂, by
        obtain rfl := (Except.ok.injEq .. ▸ h).symm
        rfl⟩

/-- A successful greedy iteration commits exactly one new pair. -/
lemma greedyIter_count {u : σ → Matching → Except PyError (ℚ × σ)}
    {s s' : Matching × List ℤ × σ} (h : greedyIter u s = .ok s') :
    countAssigned s'.1 = countAssigned s.1 + 1 ∧ s'.1.length = s.1.length := by
  obtain ⟨p, hmem, st₂, rfl⟩ := greedyIter_ok_elim h
  obtain ⟨hu, _⟩ := mem_candidates.mp hmem
  obtain ⟨hi, hnone⟩ := mem_unassignedAgents.mp hu
  have hget : s.1.get? p.1 = some none := by
    have := get?_eq_some_getD hi (none : Option ℤ)
    rwa [hnone] at this
  exact ⟨countAssigned_set s.1 hget p.2, List.length_set ..⟩

/-- A successful greedy iteration preserves the loop invariant. -/
lemma greedyIter_inv {u : σ → Matching → Except PyError (ℚ × σ)} {n : ℕ} {caps : List ℤ}
    {s s' : Matching × List ℤ × σ} (hinv : GreedyInv n caps s)
    (h : greedyIter u s = .ok s') : GreedyInv n caps s' := by
  obtain ⟨p, hmem, st₂, rfl⟩ := greedyIter_ok_elim h
  obtain ⟨hu, hol⟩ := mem_candidates.mp hmem
  obtain ⟨hi, hnone⟩ := mem_unassignedAgents.mp hu
  obtain ⟨hl, hpos⟩ := mem_openLocalities.mp hol
  obtain ⟨hlen, hclen, hent, hcap, hsum⟩ := hinv
  have hget : s.1.get? p.1 = some none := by
    have := get?_eq_some_getD hi (none : Option ℤ)
    rwa [hnone] at this
  have hlcaps : p.2 < caps.length := by rwa [hclen] at hl
  refine ⟨by rwa [List.length_set], by rwa [List.length_set], ?_, ?_, ?_⟩
  · intro x hx
    rcases List.mem_or_eq_of_mem_set hx with hx | rfl
    · exact hent x hx
    · exact Or.inr ⟨p.2, hlcaps, rfl⟩
  · intro l' hl'
    by_cases hll : p.2 = l'
    · subst hll
      rw [getD_set_self _ _ _ _ hl, assignedTo_set s.1 hget p.2,
        (hcap p.2 hl').1]
      push_cast
      constructor
      · ring
      · have := hpos
        rw [(hcap p.2 hl').1] at this
        omega
    · rw [getD_set_ne _ _ _ _ _ hll, assignedTo_set_ne s.1 hget hll]
      exact hcap l' hl'
  · rw [list_sum_set _ _ _ hl, countAssigned_set s.1 hget p.2, hsum]
    push_cast
    ring

/-- Over a whole loop run: the invariant is preserved and the number of
committed pairs equals the number of iterations. -/
lemma greedyLoop_inv {u : σ → Matching → Except PyError (ℚ × σ)} {n : ℕ} {caps : List ℤ} :
    ∀ (k : ℕ) (s s' : Matching × List ℤ × σ), GreedyInv n caps s →
      greedyLoop u k s = .ok s' →
      GreedyInv n caps s' ∧ countAssigned s'.1 = countAssigned s.1 + k := by
  intro k
  induction k with
  | zero =>
    intro s s' hinv h
    simp only [greedyLoop] at h
    obtain rfl := (Except.ok.injEq .. ▸ h).symm
    exact ⟨hinv, rfl⟩
  | succ k ih =>
    intro s s' hinv h
    simp only [greedyLoop] at h
    cases hit : greedyIter u s with
    | error e => rw [hit] at h; exact Except.noConfusion h
    | ok s₁ =>
      rw [hit] at h
      obtain ⟨hinv₁, hcnt₁⟩ := ih s₁ s' (greedyIter_inv hinv hit) h
      refine ⟨hinv₁, ?_⟩
      rw [hcnt₁, (greedyIter_count hit).1]
      omega

/-- Iteration count bookkeeping alone (no invariant, any utility, any
capacities): a completed loop committed exactly one pair per iteration. -/
lemma greedyLoop_count {u : σ → Matching → Except PyError (ℚ × σ)} :
    ∀ (k : ℕ) (s s' : Matching × List ℤ × σ), greedyLoop u k s = .ok s' →
      countAssigned s'.1 = countAssigned s.1 + k ∧ s'.1.length = s.1.length := by
  intro k
  induction k with
  | zero =>
    intro s s' h
    simp only [greedyLoop] at h
    obtain rfl := (Except.ok.injEq .. ▸ h).symm
    exact ⟨rfl, rfl⟩
  | succ k ih =>
    intro s s' h
    simp only [greedyLoop] at h
    cases hit : greedyIter u s with
    | error e => rw [hit] at h; exact Except.noConfusion h
    | ok s₁ =>
      rw [hit] at h
      obtain ⟨h1, h2⟩ := ih s₁ s' h
      obtain ⟨h3, h4⟩ := greedyIter_count hit
      exact ⟨by omega, by rw [h2, h4]⟩

/-- A matching with fewer committed pairs than entries has an unassigned
agent. -/
lemma exists_unassigned {m : Matching} (h : countAssigned m < m.length) :
    ∃ i, i ∈ unassignedAgents m := by
  have : ∃ x ∈ m, ¬ (decide (x ≠ none) = true) := by
    by_contra hall
    push_neg at hall
    have : (m.filter (fun x => decide (x ≠ none))).length = m.length := by
      rw [List.filter_length_eq_length]
      intro x hx
      exact hall x hx
    exact absurd this (by rw [← countAssigned]; omega)
  obtain ⟨x, hx, hpx⟩ := this
  have hxnone : x = none := by simpa using hpx
  subst hxnone
  obtain ⟨i, hget⟩ := List.mem_iff_get?.mp hx
  have hi : i < m.length := (List.get?_eq_some.mp hget).1
  refine ⟨i, mem_unassignedAgents.mpr ⟨hi, ?_⟩⟩
  simp [List.getD, List.get?_eq_getElem?] at hget ⊢
  simp [hget]

/-- A capacity list with positive total has an open locality. -/
lemma exists_open {caps : List ℤ} (h : 0 < caps.sum) : ∃ l, l ∈ openLocalities caps := by
  have : ∃ l < caps.length, 0 < caps.getD l 0 := by
    induction caps with
    | nil => simp at h
    | cons c rest ih =>
      by_cases hc : 0 < c
      · exact ⟨0, by simp, by simpa [List.getD]⟩
      · have : 0 < rest.sum := by
          rw [List.sum_cons] at h
          omega
        obtain ⟨l, hl, hpos⟩ := ih this
        exact ⟨l + 1, by simpa using hl, by simpa [List.getD] using hpos⟩
  obtain ⟨l, hl, hpos⟩ := this
  exact ⟨l, mem_openLocalities.mpr ⟨hl, hpos⟩⟩

/-- With a total, stateless utility, the loop runs to completion as long as
the iteration budget leaves room: at every step an unassigned agent and an
open locality remain, so the selection finds a pair and the `assert` of
methods.py line 41 cannot fire. -/
lemma greedyLoop_pure_ok (f : Matching → ℚ) (n : ℕ) (caps : List ℤ) :
    ∀ (k : ℕ) (s : Matching × List ℤ × σ), GreedyInv n caps s →
      (countAssigned s.1 : ℤ) + k ≤ min (n : ℤ) caps.sum →
      ∃ s', greedyLoop (pureU f) k s = .ok s' := by
  intro k
  induction k with
  | zero => exact fun s _ _ => ⟨s, rfl⟩
  | succ k ih =>
    intro s hinv hbud
    have hcnt_n : countAssigned s.1 < n := by
      have h1 : (countAssigned s.1 : ℤ) + (k + 1) ≤ (n : ℤ) := le_trans hbud (min_le_left _ _)
      omega
    have hcnt_cap : (countAssigned s.1 : ℤ) < caps.sum :=
      lt_of_lt_of_le (by omega) (le_trans hbud (min_le_right _ _))
    have hlen := hinv.1
    have hsum := hinv.2.2.2.2
    obtain ⟨i, hi⟩ := exists_unassigned (by rw [hlen]; exact hcnt_n)
    obtain ⟨l, hl⟩ := exists_open (by rw [hsum]; omega)
    have hcand : (i, l) ∈ candidates s.1 s.2.1 := mem_candidates.mpr ⟨hi, hl⟩
    obtain ⟨b, w, hsel, hselinv⟩ := selectBest_pure_spec f s.1 s.2.1 s.2.2
    have hb : ∃ p, b = some p := by
      cases b with
      | none =>
        obtain ⟨_, hP⟩ := hselinv
        rw [hP] at hcand
        exact absurd hcand (List.not_mem_nil _)
      | some p => exact ⟨p, rfl⟩
    obtain ⟨p, rfl⟩ := hb
    have hit : greedyIter (pureU f) s =
        .ok (s.1.set p.1 (some (p.2 : ℤ)), s.2.1.set p.2 (s.2.1.getD p.2 0 - 1), s.2.2) := by
      unfold greedyIter
      rw [hsel]
    have hinv' := greedyIter_inv hinv hit
    have hcnt' := (greedyIter_count hit).1
    obtain ⟨s', hrun⟩ := ih _ hinv' (by rw [hcnt']; push_cast; omega)
    exact ⟨s', by
      simp only [greedyLoop]
      rw [hit]
      exact hrun⟩

/-! ## `check_valid_matching` on well-formed matchings (claim C10 machinery) -/

/-- The disjunctive locality-index test of models.py line 26 is false on
every entry: `l >= 0 or l < len(locality_caps)` always holds for an `int`. -/
lemma index_check_false (len : ℕ) (x : Option ℤ) :
    (match x with
      | none => false
      | some l => !(decide (0 ≤ l) || decide (l < (len : ℤ)))) = false := by
  cases x with
  | none => rfl
  | some l =>
    rcases le_or_lt 0 l with h | h
    · simp [h]
    · have h2 : l < (len : ℤ) := lt_of_lt_of_le h (Int.natCast_nonneg len)
      simp [h2]

lemma assignedTo_cons (x : Option ℤ) (m : Matching) (l : ℕ) :
    assignedTo (x :: m) l = (if x = some (l : ℤ) then 1 else 0) + assignedTo m l := by
  by_cases h : x = some (l : ℤ) <;> simp [assignedTo, List.filter_cons, h] <;> omega

/-- The usage-counting pass succeeds on a matching whose entries are genuine
locality indices, and computes exactly the per-locality assignment counts on
top of the accumulator. -/
lemma count_usage_go_spec (caps_len : ℕ) :
    ∀ (m : Matching) (usage : List ℕ),
      usage.length = caps_len →
      (∀ x ∈ m, x = none ∨ ∃ l : ℕ, l < caps_len ∧ x = some (l : ℤ)) →
      ∃ res,
        m.foldlM
          (fun (usage : List ℕ) (x : Option ℤ) =>
            match x with
            | none => some usage
            | some l => pyModify usage l (· + 1)) usage = some res ∧
        res.length = caps_len ∧
        ∀ l < caps_len, res.getD l 0 = usage.getD l 0 + assignedTo m l := by
  intro m
  induction m with
  | nil =>
    intro usage hlen _
    refine ⟨usage, rfl, hlen, ?_⟩
    intro l _
    simp [assignedTo]
  | cons x rest ih =>
    intro usage hlen hent
    rcases hent x (List.mem_cons_self x rest) with rfl | ⟨l₀, hl₀, rfl⟩
    · obtain ⟨res, hres, hreslen, hresval⟩ := ih usage hlen
        (fun y hy => hent y (List.mem_cons_of_mem _ hy))
      refine ⟨res, by simpa [List.foldlM] using hres, hreslen, ?_⟩
      intro l hl
      rw [hresval l hl, assignedTo_cons]
      simp
    · have hl₀u : l₀ < usage.length := by omega
      have hget : usage.get? l₀ = some (usage.getD l₀ 0) := get?_eq_some_getD hl₀u 0
      have hmod : pyModify usage (l₀ : ℤ) (· + 1) = some (usage.set l₀ (usage.getD l₀ 0 + 1)) :=
        pyModify_coe hget _
      obtain ⟨res, hres, hreslen, hresval⟩ := ih (usage.set l₀ (usage.getD l₀ 0 + 1))
        (by rw [List.length_set]; exact hlen)
        (fun y hy => hent y (List.mem_cons_of_mem _ hy))
      refine ⟨res, ?_, hreslen, ?_⟩
      · simpa [List.foldlM, hmod] using hres
      · intro l hl
        rw [hresval l hl, assignedTo_cons]
        by_cases hll : l₀ = l
        · subst hll
          rw [getD_set_self _ _ _ _ hl₀u]
          simp
          omega
        · rw [getD_set_ne _ _ _ _ _ hll]
          have : ¬ ((l₀ : ℤ) = (l : ℤ)) := by exact_mod_cast hll
          simp [this]

/-- A matching of the right length, whose entries are genuine locality
indices and whose per-locality counts respect the capacities, passes
`check_valid_matching`. -/
lemma check_valid_of_counts {n : ℕ} {caps : List ℤ} {m : Matching}
    (hlen : m.length = n)
    (hent : ∀ x ∈ m, x = none ∨ ∃ l : ℕ, l < caps.length ∧ x = some (l : ℤ))
    (hcap : ∀ l < caps.length, (assignedTo m l : ℤ) ≤ caps.getD l 0) :
    check_valid_matching n caps m = .ok () := by
  obtain ⟨res, hres, hreslen, hresval⟩ := count_usage_go_spec caps.length m
    (List.replicate caps.length 0) (List.length_replicate ..) hent
  have husage : ∀ l < caps.length, res.getD l 0 = assignedTo m l := by
    intro l hl
    rw [hresval l hl]
    simp
  unfold check_valid_matching
  rw [if_neg (fun hc => hc hlen)]
  have hany : m.any (fun x =>
      match x with
      | none => false
      | some l => !(decide (0 ≤ l) || decide (l < (caps.length : ℤ)))) = false := by
    rw [List.any_eq_false]
    intro x _
    rw [index_check_false]
    exact Bool.false_ne_true
  rw [if_neg (by rw [hany]; exact Bool.false_ne_true)]
  simp only [count_usage, hres]
  have hcapany : caps.enum.any (fun q => decide ((res.getD q.1 0 : ℤ) > q.2)) = false := by
    rw [List.any_eq_false]
    intro q hq
    have hgetq : caps.get? q.1 = some q.2 := List.mem_enum_iff_get?.mp hq
    have hql : q.1 < caps.length := (List.get?_eq_some.mp hgetq).1
    have hq2 : caps.getD q.1 0 = q.2 := by
      have := get?_eq_some_getD hql (0 : ℤ)
      rw [hgetq] at this
      exact (Option.some.injEq .. ▸ this).symm
    simp only [husage q.1 hql, decide_eq_true_eq]
    push_neg
    rw [← hq2]
    exact hcap q.1 hql
  rw [if_neg (by rw [hcapany]; exact Bool.false_ne_true)]

/-- Any state satisfying the loop invariant holds a matching that passes
`check_valid_matching`. -/
lemma check_valid_of_inv {n : ℕ} {caps : List ℤ} {s : Matching × List ℤ × σ}
    (hinv : GreedyInv n caps s) : check_valid_matching n caps s.1 = .ok () :=
  check_valid_of_counts hinv.1 hinv.2.2.1
    (fun l hl => by
      obtain ⟨heq, hpos⟩ := hinv.2.2.2.1 l hl
      omega)

/-- Any tentative assignment the selection loop tries on an invariant state
also passes `check_valid_matching`: the tried agent is unassigned and the
tried locality has remaining capacity. -/
lemma check_valid_tentative {n : ℕ} {caps : List ℤ} {s : Matching × List ℤ × σ}
    (hinv : GreedyInv n caps s) {p : ℕ × ℕ} (hp : p ∈ candidates s.1 s.2.1) :
    check_valid_matching n caps (s.1.set p.1 (some (p.2 : ℤ))) = .ok () := by
  obtain ⟨hu, hol⟩ := mem_candidates.mp hp
  obtain ⟨hi, hnone⟩ := mem_unassignedAgents.mp hu
  obtain ⟨hl, hpos⟩ := mem_openLocalities.mp hol
  obtain ⟨hlen, hclen, hent, hcap, _⟩ := hinv
  have hget : s.1.get? p.1 = some none := by
    have := get?_eq_some_getD hi (none : Option ℤ)
    rwa [hnone] at this
  have hlcaps : p.2 < caps.length := by rwa [hclen] at hl
  refine check_valid_of_counts (by rwa [List.length_set]) ?_ ?_
  · intro x hx
    rcases List.mem_or_eq_of_mem_set hx with hx | rfl
    · exact hent x hx
    · exact Or.inr ⟨p.2, hlcaps, rfl⟩
  · intro l' hl'
    by_cases hll : p.2 = l'
    · subst hll
      rw [assignedTo_set s.1 hget p.2]
      obtain ⟨heq, _⟩ := hcap p.2 hl'
      rw [heq] at hpos
      push_cast
      omega
    · rw [assignedTo_set_ne s.1 hget (fun hc => hll hc)]
      obtain ⟨heq, hpos'⟩ := hcap l' hl'
      omega

/-! ## Nonnegativity of the additive utility (claim C8 machinery) -/

lemma pyGet_mem {xs : List α} {i : ℤ} {a : α} (h : pyGet xs i = some a) : a ∈ xs := by
  unfold pyGet at h
  cases hk : pyIdx xs.length i with
  | none => rw [hk] at h; exact Option.noConfusion h
  | some k => rw [hk] at h; exact List.get?_mem h

lemma utility_sum_go_nonneg (m : AdditiveModel)
    (hmat : ∀ row ∈ m.utility_matrix, ∀ x ∈ row, 0 ≤ x) :
    ∀ (qs : List (ℕ × Option ℤ)) (acc : ℚ), 0 ≤ acc →
      ∀ v : ℚ, qs.foldlM m.sum_step acc = Except.ok v → 0 ≤ v := by
  intro qs
  induction qs with
  | nil =>
    intro acc hacc v h
    obtain rfl : acc = v := by simpa [List.foldlM, pure, Except.pure] using h
    exact hacc
  | cons q rest ih =>
    intro acc hacc v h
    simp only [List.foldlM] at h
    cases hq : q.2 with
    | none =>
      have hstep : m.sum_step acc q = Except.ok acc := by
        simp only [AdditiveModel.sum_step, hq]
      rw [hstep] at h
      simp only [bind, Except.bind] at h
      exact ih acc hacc v h
    | some l =>
      cases hrow : pyGet m.utility_matrix (q.1 : ℤ) with
      | none =>
        have hstep : m.sum_step acc q = Except.error PyError.indexError := by
          simp only [AdditiveModel.sum_step, hq, hrow]
        rw [hstep] at h
        simp only [bind, Except.bind] at h
        exact Except.noConfusion h
      | some row =>
        cases hx : pyGet row l with
        | none =>
          have hstep : m.sum_step acc q = Except.error PyError.indexError := by
            simp only [AdditiveModel.sum_step, hq, hrow, hx]
          rw [hstep] at h
          simp only [bind, Except.bind] at h
          exact Except.noConfusion h
        | some x =>
          have hstep : m.sum_step acc q = Except.ok (acc + x) := by
            simp only [AdditiveModel.sum_step, hq, hrow, hx]
          rw [hstep] at h
          simp only [bind, Except.bind] at h
          have hx0 : 0 ≤ x := hmat row (pyGet_mem hrow) x (pyGet_mem hx)
          exact ih (acc + x) (by linarith) v h

/-- With an entrywise nonnegative matrix, every utility the additive model
reports is nonnegative. -/
lemma additive_utility_nonneg (m : AdditiveModel)
    (hmat : ∀ row ∈ m.utility_matrix, ∀ x ∈ row, 0 ≤ x) (matching : Matching) (v : ℚ)
    (h : m.utility_for_matching matching = .ok v) : 0 ≤ v := by
  unfold AdditiveModel.utility_for_matching at h
  cases hc : check_valid_matching m.num_agents m.locality_caps matching with
  | error e => rw [hc] at h; exact Except.noConfusion h
  | ok _ =>
    rw [hc] at h
    exact utility_sum_go_nonneg m hmat matching.enum 0 (le_refl 0) v h

/-- The all-unassigned matching scores zero (and, with nonnegative
capacities, passes validation). -/
lemma additive_utility_unassigned (m : AdditiveModel)
    (hcaps : ∀ c ∈ m.locality_caps, 0 ≤ c) :
    m.utility_for_matching (List.replicate m.num_agents (none : Option ℤ)) = .ok 0 := by
  have hcheck : check_valid_matching m.num_agents m.locality_caps
      (List.replicate m.num_agents (none : Option ℤ)) = .ok () := by
    refine check_valid_of_counts (List.length_replicate ..) ?_ ?_
    · intro x hx
      exact Or.inl (List.eq_of_mem_replicate hx)
    · intro l hl
      rw [assignedTo_replicate_none]
      have hg : m.locality_caps.get? l = some (m.locality_caps.getD l 0) :=
        get?_eq_some_getD hl 0
      simpa using hcaps _ (List.get?_mem hg)
  unfold AdditiveModel.utility_for_matching
  rw [hcheck]
  unfold AdditiveModel.utility_sum
  have : ∀ (qs : List (ℕ × Option ℤ)), (∀ q ∈ qs, q.2 = (none : Option ℤ)) →
      ∀ (acc : ℚ), qs.foldlM m.sum_step acc = Except.ok acc := by
    intro qs
    induction qs with
    | nil => intro _ acc; rfl
    | cons q rest ih =>
      intro hq acc
      have h2 := hq q (List.mem_cons_self q rest)
      simp only [List.foldlM, AdditiveModel.sum_step, h2]
      exact ih (fun r hr => hq r (List.mem_cons_of_mem q hr)) acc
  refine this _ ?_ 0
  intro q hq
  have := List.mem_enum_iff_get?.mp hq
  have h2 := List.get?_mem this
  exact List.eq_of_mem_replicate h2

/-! ## The C7 instance's integer program -/

lemma IPvalue_addC7 (x : ℕ → ℕ → ℚ) :
    IPvalue addC7 x =
      4 * x 0 0 + 1 * x 0 1 + (1 * x 1 0 + 4 * x 1 1) + (2 * x 2 0 + 2 * x 2 1) := by
  have h00 : (marginal addC7 0 0).toOption.getD 0 = 4 := by with_unfolding_all rfl
  have h01 : (marginal addC7 0 1).toOption.getD 0 = 1 := by with_unfolding_all rfl
  have h10 : (marginal addC7 1 0).toOption.getD 0 = 1 := by with_unfolding_all rfl
  have h11 : (marginal addC7 1 1).toOption.getD 0 = 4 := by with_unfolding_all rfl
  have h20 : (marginal addC7 2 0).toOption.getD 0 = 2 := by with_unfolding_all rfl
  have h21 : (marginal addC7 2 1).toOption.getD 0 = 2 := by with_unfolding_all rfl
  have hn : addC7.num_agents = 3 := rfl
  have hc : addC7.locality_caps.length = 2 := rfl
  rw [IPvalue, hn, hc]
  simp only [List.range_succ, List.range_zero, List.nil_append, List.cons_append,
    List.map_cons, List.map_nil, List.sum_cons, List.sum_nil, h00, h01, h10, h11, h20, h21]
  ring

/-- Any optimal solver report for the C7 instance is the assignment
`agent 0 → locality 0`, `agent 1 → locality 1`, agent 2 unmatched. -/
lemma solC7_forced (x : ℕ → ℕ → ℚ) (hopt : IPoptimal addC7 x) :
    x 0 0 = 1 ∧ x 1 1 = 1 ∧ x 0 1 = 0 ∧ x 1 0 = 0 ∧ x 2 0 = 0 ∧ x 2 1 = 0 := by
  obtain ⟨hf, hmax⟩ := hopt
  have hfeas : IPfeasible addC7 solC7 := by
    refine ⟨?_, ?_, ?_⟩ <;> with_unfolding_all decide
  have hval : IPvalue addC7 solC7 = 8 := by
    rw [IPvalue_addC7]
    norm_num [solC7]
  have hge : (8 : ℚ) ≤ IPvalue addC7 x := hval ▸ hmax solC7 hfeas
  rw [IPvalue_addC7] at hge
  obtain ⟨hbin, hagent, hloc⟩ := hf
  have hn : addC7.num_agents = 3 := rfl
  have hcl : addC7.locality_caps.length = 2 := rfl
  have b00 := hbin 0 (by rw [hn]; omega) 0 (by rw [hcl]; omega)
  have b01 := hbin 0 (by rw [hn]; omega) 1 (by rw [hcl]; omega)
  have b10 := hbin 1 (by rw [hn]; omega) 0 (by rw [hcl]; omega)
  have b11 := hbin 1 (by rw [hn]; omega) 1 (by rw [hcl]; omega)
  have b20 := hbin 2 (by rw [hn]; omega) 0 (by rw [hcl]; omega)
  have b21 := hbin 2 (by rw [hn]; omega) 1 (by rw [hcl]; omega)
  have hl0 := hloc 0 (by rw [hcl]; omega)
  have hl1 := hloc 1 (by rw [hcl]; omega)
  rw [hn] at hl0 hl1
  simp only [List.range_succ, List.range_zero, List.nil_append, List.cons_append,
    List.map_cons, List.map_nil, List.sum_cons, List.sum_nil] at hl0 hl1
  have hc0 : x 0 0 + (x 1 0 + (x 2 0 + 0)) ≤ 1 := by
    have : (addC7.locality_caps.getD 0 0 : ℚ) = 1 := by norm_num [addC7]
    linarith [hl0, this.symm ▸ hl0]
  have hc1 : x 0 1 + (x 1 1 + (x 2 1 + 0)) ≤ 1 := by
    have : (addC7.locality_caps.getD 1 0 : ℚ) = 1 := by norm_num [addC7]
    linarith [hl1, this.symm ▸ hl1]
  have r00 : 0 ≤ x 0 0 ∧ x 0 0 ≤ 1 := by rcases b00 with h | h <;> rw [h] <;> norm_num
  have r01 : 0 ≤ x 0 1 ∧ x 0 1 ≤ 1 := by rcases b01 with h | h <;> rw [h] <;> norm_num
  have r10 : 0 ≤ x 1 0 ∧ x 1 0 ≤ 1 := by rcases b10 with h | h <;> rw [h] <;> norm_num
  have r11 : 0 ≤ x 1 1 ∧ x 1 1 ≤ 1 := by rcases b11 with h | h <;> rw [h] <;> norm_num
  have r20 : 0 ≤ x 2 0 ∧ x 2 0 ≤ 1 := by rcases b20 with h | h <;> rw [h] <;> norm_num
  have r21 : 0 ≤ x 2 1 ∧ x 2 1 ≤ 1 := by rcases b21 with h | h <;> rw [h] <;> norm_num
  have h01z : x 0 1 = 0 := by linarith [r00.1, r00.2, r01.1, r10.1, r11.1, r11.2, r20.1, r21.1]
  have h10z : x 1 0 = 0 := by linarith [r00.1, r00.2, r01.1, r10.1, r11.1, r11.2, r20.1, r21.1]
  have h20z : x 2 0 = 0 := by linarith [r00.1, r00.2, r01.1, r10.1, r11.1, r11.2, r20.1, r21.1]
  have h21z : x 2 1 = 0 := by linarith [r00.1, r00.2, r01.1, r10.1, r11.1, r11.2, r20.1, r21.1]
  have h00o : x 0 0 = 1 := by linarith [r00.2, r11.2, h01z, h10z, h20z, h21z]
  have h11o : x 1 1 = 1 := by linarith [r00.2, r11.2, h01z, h10z, h20z, h21z]
  exact ⟨h00o, h11o, h01z, h10z, h20z, h21z⟩

/-- Reading the forced solution back gives `[0, 1, None]`. -/
lemma read_back_forced (x : ℕ → ℕ → ℚ)
    (h00 : x 0 0 = 1) (h11 : x 1 1 = 1) (h01 : x 0 1 = 0) (h10 : x 1 0 = 0)
    (h20 : x 2 0 = 0) (h21 : x 2 1 = 0) :
    read_back x 3 2 = [some 0, some 1, none] := by
  unfold read_back
  simp only [List.range_succ, List.range_zero, List.nil_append, List.cons_append,
    List.map_cons, List.map_nil]
  rw [show (List.find? (fun l => decide ((1 : ℚ)/2 < x 0 l)) [0, 1]) = some 0 by
      rw [List.find?_cons_of_pos]
      rw [h00]; norm_num,
    show (List.find? (fun l => decide ((1 : ℚ)/2 < x 1 l)) [0, 1]) = some 1 by
      rw [List.find?_cons_of_neg, List.find?_cons_of_pos]
      · rw [h11]; norm_num
      · rw [h10]; norm_num,
    show (List.find? (fun l => decide ((1 : ℚ)/2 < x 2 l)) [0, 1]) = none by
      rw [List.find?_cons_of_neg, List.find?_cons_of_neg, List.find?_nil]
      · rw [h21]; norm_num
      · rw [h20]; norm_num]
  rfl

/-- One more C7 ingredient: every feasible point of the C7 integer program
has objective at most 8. -/
lemma IPvalue_le_eight (y : ℕ → ℕ → ℚ) (hy : IPfeasible addC7 y) : IPvalue addC7 y ≤ 8 := by
  obtain ⟨hbin, _, hloc⟩ := hy
  have hn : addC7.num_agents = 3 := rfl
  have hcl : addC7.locality_caps.length = 2 := rfl
  have b00 := hbin 0 (by rw [hn]; omega) 0 (by rw [hcl]; omega)
  have b01 := hbin 0 (by rw [hn]; omega) 1 (by rw [hcl]; omega)
  have b10 := hbin 1 (by rw [hn]; omega) 0 (by rw [hcl]; omega)
  have b11 := hbin 1 (by rw [hn]; omega) 1 (by rw [hcl]; omega)
  have b20 := hbin 2 (by rw [hn]; omega) 0 (by rw [hcl]; omega)
  have b21 := hbin 2 (by rw [hn]; omega) 1 (by rw [hcl]; omega)
  have hl0 := hloc 0 (by rw [hcl]; omega)
  have hl1 := hloc 1 (by rw [hcl]; omega)
  rw [hn] at hl0 hl1
  simp only [List.range_succ, List.range_zero, List.nil_append, List.cons_append,
    List.map_cons, List.map_nil, List.sum_cons, List.sum_nil] at hl0 hl1
  have hcap0 : (addC7.locality_caps.getD 0 0 : ℚ) = 1 := by norm_num [addC7]
  have hcap1 : (addC7.locality_caps.getD 1 0 : ℚ) = 1 := by norm_num [addC7]
  rw [hcap0] at hl0
  rw [hcap1] at hl1
  have r00 : 0 ≤ y 0 0 ∧ y 0 0 ≤ 1 := by rcases b00 with h | h <;> rw [h] <;> norm_num
  have r01 : 0 ≤ y 0 1 ∧ y 0 1 ≤ 1 := by rcases b01 with h | h <;> rw [h] <;> norm_num
  have r10 : 0 ≤ y 1 0 ∧ y 1 0 ≤ 1 := by rcases b10 with h | h <;> rw [h] <;> norm_num
  have r11 : 0 ≤ y 1 1 ∧ y 1 1 ≤ 1 := by rcases b11 with h | h <;> rw [h] <;> norm_num
  have r20 : 0 ≤ y 2 0 ∧ y 2 0 ≤ 1 := by rcases b20 with h | h <;> rw [h] <;> norm_num
  have r21 : 0 ≤ y 2 1 ∧ y 2 1 ≤ 1 := by rcases b21 with h | h <;> rw [h] <;> norm_num
  rw [IPvalue_addC7]
  linarith [r00.1, r01.1, r10.1, r11.1, r20.1, r21.1, hl0, hl1]

/-! ## The claims -/

/-- Claim C1: each optimizer is specified to return the pair
`(matching, model.utility_for_matching(matching))` with the utility value
recomputed fresh after the search.  The code instead ends every optimizer
with the call `model.utility_for_matching(matching, False)`; since every
model class declares `utility_for_matching(self, matching)` with a single
parameter, that call raises `TypeError`, so no optimizer ever returns.
Exhibited on the spec §8 additive instance (and, for `best_of_random`, a
zero-trial run): the greedy search itself completes with the matching
`[0, 1, None]` whose fresh utility is 8, yet all three optimizers error. -/
theorem C1_final_call_raises_type_error :
    addC7.greedy = .error .typeError ∧
    additive_optimization addC7 true solC7 = .error .typeError ∧
    best_of_random addC7.u addC7.u2opt addC7.num_agents addC7.locality_caps 0
      (fun _ => 0) 5 () = .error .typeError ∧
    greedy_search addC7.u addC7.num_agents addC7.locality_caps () =
      .ok ([some 0, some 1, none], [0, 0], ()) ∧
    addC7.utility_for_matching [some 0, some 1, none] = .ok 8 :=
  ⟨by with_unfolding_all rfl, by with_unfolding_all rfl, by with_unfolding_all rfl,
    by with_unfolding_all rfl, by with_unfolding_all rfl⟩

/-- Claim C2: `check_valid_matching` is claimed to raise the invalid-index
`ValueError` for any out-of-range entry, before capacity counting.  It does
not: the test `not (l >= 0 or l < len(locality_caps))` is always false, so a
negative index (here `-1` against two localities) sails through, wraps
around in the usage count, and the matching is accepted; a too-large index
(here `5`) instead dies with `IndexError` inside the counting pass. -/
theorem C2_invalid_index_not_rejected :
    check_valid_matching 1 [1, 1] [some (-1)] = .ok () ∧
    check_valid_matching 1 [1, 1] [some 5] = .error .indexError :=
  ⟨by decide, by decide⟩

/-- Claim C3: `CoordinationModel.utility_for_matching` is claimed to return
the plain sum over localities of the memoized per-locality sample means.
The double loop of models.py lines 289-291 instead adds each per-locality
mean `random_samples` times.  On the one-agent, one-job,
probability-one instance with `random_samples = 2` (edge stream always
below 1, the external matching oracle reporting the single edge), the
per-locality mean is 1 but the model utility comes out as 2. -/
theorem C3_model_utility_scaled_by_random_samples :
    coordC3.random_samples = 2 ∧
    coordC3.utility_at_locality (fun _ es => es.length) (fun _ => 0) coordC3.initState 0 [0] =
      .ok (1, ([[([0], 1)]], 2)) ∧
    coordC3.utility_for_matching (fun _ es => es.length) (fun _ => 0) coordC3.initState
      [some 0] = .ok (2, ([[([0], 1)]], 2)) ∧
    (2 : ℚ) ≠ 1 :=
  ⟨rfl, by with_unfolding_all rfl, by with_unfolding_all rfl, by norm_num⟩

/-- Claim C4: in any iteration of the greedy search (over any model whose
utility is a total function of the tentative matching), the committed pair
is a candidate pair (unassigned agent, locality with remaining capacity)
whose tentative utility is greatest among all candidates, and any other
candidate achieving the same value comes strictly later in
agent-index-major, locality-index-minor order. -/
theorem C4_greedy_commits_first_argmax {σ : Type} (f : Matching → ℚ) (st : σ)
    (m : Matching) (caps : List ℤ) (h : candidates m caps ≠ []) :
    ∃ p : ℕ × ℕ, p ∈ candidates m caps ∧
      greedyIter (pureU f) (m, caps, st) =
        .ok (m.set p.1 (some (p.2 : ℤ)), caps.set p.2 (caps.getD p.2 0 - 1), st) ∧
      (∀ q ∈ candidates m caps, selVal f m q ≤ selVal f m p) ∧
      (∀ q ∈ candidates m caps, selVal f m q = selVal f m p → q = p ∨ lexLt p q) := by
  obtain ⟨b, w, hsel, hinv⟩ := selectBest_pure_spec f m caps st
  cases b with
  | none =>
    obtain ⟨_, hP⟩ := hinv
    exact absurd hP h
  | some p =>
    obtain ⟨hmem, hw, hmax, hfirst⟩ := hinv
    refine ⟨p, hmem, ?_, ?_, ?_⟩
    · unfold greedyIter
      rw [hsel]
    · intro q hq
      have hle := hmax q hq
      rw [hw] at hle
      exact_mod_cast hle
    · intro q hq heq
      rcases lexLt_total q p with hlt | heqq | hgt
      · exfalso
        have hstrict := hfirst q hq hlt
        rw [hw] at hstrict
        have : selVal f m q < selVal f m p := by exact_mod_cast hstrict
        exact absurd heq (ne_of_lt this)
      · exact Or.inl heqq
      · exact Or.inr hgt

theorem C4_witness :
    candidates [none, none] [1] ≠ [] ∧
    ∃ p : ℕ × ℕ, p ∈ candidates [none, none] [1] ∧
      greedyIter (pureU (fun _ => (0 : ℚ))) ([none, none], [1], ()) =
        .ok (List.set [none, none] p.1 (some (p.2 : ℤ)),
          List.set [1] p.2 (List.getD [1] p.2 0 - 1), ()) ∧
      (∀ q ∈ candidates [none, none] [1],
        selVal (fun _ => (0 : ℚ)) [none, none] q ≤ selVal (fun _ => (0 : ℚ)) [none, none] p) ∧
      (∀ q ∈ candidates [none, none] [1],
        selVal (fun _ => (0 : ℚ)) [none, none] q = selVal (fun _ => (0 : ℚ)) [none, none] p →
          q = p ∨ lexLt p q) :=
  ⟨by decide, C4_greedy_commits_first_argmax (fun _ => (0 : ℚ)) () [none, none] [1] (by decide)⟩

/-- Claim C5: with `num_agents ≥ 0`, nonnegative capacities and a total
utility function, the defensive `assert best_pair is not None` never fails:
the whole greedy search completes without error (an assertion failure would
be `Except.error .assertionError`). -/
theorem C5_defensive_assert_never_fails {σ : Type} (f : Matching → ℚ) (st : σ)
    (num_agents : ℕ) (caps : List ℤ) (hcaps : ∀ c ∈ caps, 0 ≤ c) :
    ∃ r, greedy_search (pureU f) num_agents caps st = .ok r := by
  have hsum : (0 : ℤ) ≤ caps.sum := List.sum_nonneg hcaps
  have hmin : (0 : ℤ) ≤ min (num_agents : ℤ) caps.sum :=
    le_min (Int.natCast_nonneg _) hsum
  unfold greedy_search
  refine greedyLoop_pure_ok f num_agents caps (greedy_iterations num_agents caps)
    _ (greedyInv_init num_agents caps st hcaps) ?_
  rw [countAssigned_replicate_none]
  unfold greedy_iterations
  rw [Int.toNat_of_nonneg hmin]
  omega

theorem C5_witness :
    (∀ c ∈ [(1 : ℤ), 0, 2], 0 ≤ c) ∧
    ∃ r, greedy_search (pureU (fun _ => (0 : ℚ))) 2 [1, 0, 2] () = .ok r :=
  ⟨by decide, C5_defensive_assert_never_fails (fun _ => (0 : ℚ)) () 2 [1, 0, 2] (by decide)⟩

/-- Claim C6: the greedy search always terminates — it is by construction a
loop of exactly `min(num_agents, sum(locality_caps))` iterations (first
conjunct, definitional) — and when it completes, the number of committed
pairs equals that iteration count, so it never exceeds
`min(num_agents, sum(locality_caps))`.  This holds for any model state and
utility, with no positivity assumption on the capacities. -/
theorem C6_loop_and_commit_bound {σ : Type} (u : σ → Matching → Except PyError (ℚ × σ))
    (num_agents : ℕ) (caps : List ℤ) (st : σ) (mat : Matching) (caps' : List ℤ) (st' : σ)
    (h : greedy_search u num_agents caps st = .ok (mat, caps', st')) :
    greedy_search u num_agents caps st =
      greedyLoop u ((min (num_agents : ℤ) caps.sum).toNat)
        (List.replicate num_agents (none : Option ℤ), caps, st) ∧
    countAssigned mat = (min (num_agents : ℤ) caps.sum).toNat := by
  refine ⟨rfl, ?_⟩
  have hcount := (greedyLoop_count (greedy_iterations num_agents caps)
    (List.replicate num_agents (none : Option ℤ), caps, st) (mat, caps', st') h).1
  rw [countAssigned_replicate_none] at hcount
  rw [hcount, Nat.zero_add]
  rfl

theorem C6_witness :
    greedy_search addC7.u addC7.num_agents addC7.locality_caps () =
      .ok ([some 0, some 1, none], [0, 0], ()) ∧
    countAssigned [some 0, some 1, none] = (min ((3 : ℕ) : ℤ) ([1, 1] : List ℤ).sum).toNat := by
  have h : greedy_search addC7.u addC7.num_agents addC7.locality_caps () =
      .ok ([some 0, some 1, none], [0, 0], ()) := by with_unfolding_all rfl
  exact ⟨h, (C6_loop_and_commit_bound addC7.u addC7.num_agents addC7.locality_caps ()
    [some 0, some 1, none] [0, 0] () h).2⟩

/-- Claim C7: on the 3-agent, 2-locality additive instance of spec §8, both
`additive_optimization` and `greedy_algorithm` are claimed to return the
matching `[0, 1, None]` with value 8.  The searches do reach exactly that
matching — any optimal solver report reads back to it, its fresh utility is
8, and the greedy loop commits it — but neither optimizer returns: the final
two-positional-argument `utility_for_matching` call raises `TypeError`
(the C1 defect). -/
theorem C7_additive_instance (sol : ℕ → ℕ → ℚ) (hopt : IPoptimal addC7 sol) :
    read_back sol addC7.num_agents addC7.locality_caps.length = [some 0, some 1, none] ∧
    addC7.utility_for_matching [some 0, some 1, none] = .ok 8 ∧
    additive_optimization addC7 true sol = .error .typeError ∧
    greedy_search addC7.u addC7.num_agents addC7.locality_caps () =
      .ok ([some 0, some 1, none], [0, 0], ()) ∧
    addC7.greedy = .error .typeError := by
  obtain ⟨h00, h11, h01, h10, h20, h21⟩ := solC7_forced sol hopt
  refine ⟨read_back_forced sol h00 h11 h01 h10 h20 h21, by with_unfolding_all rfl, ?_,
    by with_unfolding_all rfl, by with_unfolding_all rfl⟩
  unfold additive_optimization
  rw [show collect_marginals addC7 = .ok [[4, 1], [1, 4], [2, 2]] from by
    with_unfolding_all rfl]
  rfl

theorem C7_witness :
    IPoptimal addC7 solC7 ∧
    read_back solC7 addC7.num_agents addC7.locality_caps.length = [some 0, some 1, none] ∧
    addC7.utility_for_matching [some 0, some 1, none] = .ok 8 ∧
    additive_optimization addC7 true solC7 = .error .typeError ∧
    greedy_search addC7.u addC7.num_agents addC7.locality_caps () =
      .ok ([some 0, some 1, none], [0, 0], ()) ∧
    addC7.greedy = .error .typeError := by
  have hopt : IPoptimal addC7 solC7 := by
    refine ⟨by refine ⟨?_, ?_, ?_⟩ <;> with_unfolding_all decide, ?_⟩
    intro y hy
    have hval : IPvalue addC7 solC7 = 8 := by
      rw [IPvalue_addC7]
      norm_num [solC7]
    rw [hval]
    exact IPvalue_le_eight y hy
  exact ⟨hopt, C7_additive_instance solC7 hopt⟩

/-- Claim C8's counterexample: `AdditiveModel.__init__` only asserts the
matrix dimensions, so it accepts `[[-1]]`, and the resulting utility of the
valid matching `[0]` is `-1 < 0`, refuting unconditional nonnegativity. -/
theorem C8_counterexample :
    addNeg.ctor_ok ∧ addNeg.utility_for_matching [some 0] = .ok (-1) ∧ ¬ (0 ≤ (-1 : ℚ)) :=
  ⟨by decide, by with_unfolding_all rfl, by norm_num⟩

/-- Claim C8 as amended: for `AdditiveModel`, whenever every entry of
`utility_matrix` is nonnegative, every utility value the model returns is
nonnegative, and (for nonnegative capacities) the fully-unassigned matching
is accepted with utility exactly 0.  Without the entrywise condition —
which the constructor does not enforce — nonnegativity fails, per
`C8_counterexample`. -/
theorem C8_nonneg_for_nonneg_matrix (m : AdditiveModel)
    (hmat : ∀ row ∈ m.utility_matrix, ∀ x ∈ row, 0 ≤ x) :
    (∀ (matching : Matching) (v : ℚ), m.utility_for_matching matching = .ok v → 0 ≤ v) ∧
    ((∀ c ∈ m.locality_caps, 0 ≤ c) →
      m.utility_for_matching (List.replicate m.num_agents (none : Option ℤ)) = .ok 0) :=
  ⟨fun matching v h => additive_utility_nonneg m hmat matching v h,
    fun hcaps => additive_utility_unassigned m hcaps⟩

theorem C8_witness :
    (∀ row ∈ [[(5 : ℚ)]], ∀ x ∈ row, 0 ≤ x) ∧
    (AdditiveModel.mk 1 [1] [[5]]).utility_for_matching
      (List.replicate (AdditiveModel.mk 1 [1] [[5]]).num_agents (none : Option ℤ)) = .ok 0 :=
  ⟨by decide, (C8_nonneg_for_nonneg_matrix (AdditiveModel.mk 1 [1] [[5]]) (by decide)).2
    (by decide)⟩

/-- Claim C9: for each stochastic model, querying the per-locality (or
per-locality-and-profession) utility twice for the same agent subset from
the state left by the first query returns the identical value, the second
query being answered from the cache the first one filled (the state is left
untouched by the second query). -/
theorem C9_memoized_queries_idempotent :
    (∀ (M : CoordinationModel) (oracle : List ℕ → List (ℕ × ℕ) → ℕ) (stream : ℕ → ℚ)
      (s : CoordState) (l : ℕ) (agents : List ℕ) (v : ℚ) (s₁ : CoordState),
      M.utility_at_locality oracle stream s l agents = .ok (v, s₁) →
      M.utility_at_locality oracle stream s₁ l agents = .ok (v, s₁)) ∧
    (∀ (M : RetroactiveCorrectionModel) (stream : ℕ → ℚ) (s : ProfMemoState) (l p : ℕ)
      (agents : List ℕ) (v : ℚ) (s₁ : ProfMemoState),
      M.utility_at_locality_profession stream s l p agents = .ok (v, s₁) →
      M.utility_at_locality_profession stream s₁ l p agents = .ok (v, s₁)) ∧
    (∀ (M : InterviewModel) (shuffleO : ℕ → List ℚ → List ℚ) (stream : ℕ → ℚ)
      (s : ProfMemoState) (l p : ℕ) (agents : List ℕ) (v : ℚ) (s₁ : ProfMemoState),
      M.utility_at_locality_profession shuffleO stream s l p agents = .ok (v, s₁) →
      M.utility_at_locality_profession shuffleO stream s₁ l p agents = .ok (v, s₁)) :=
  ⟨coord_memo_idem, retro_memo_idem, interview_memo_idem⟩

theorem C9_witness :
    coordC3.utility_at_locality (fun _ es => es.length) (fun _ => 0) ([[([0], 1)]], 2) 0 [0] =
      .ok (1, ([[([0], 1)]], 2)) ∧
    retroT.utility_at_locality_profession (fun _ => 0) ([[[([1/2], 1)]]], 1) 0 0 [0] =
      .ok (1, ([[[([1/2], 1)]]], 1)) ∧
    interT.utility_at_locality_profession (fun _ probs => probs) (fun _ => 0)
      ([[[([1/2], 1)]]], 2) 0 0 [0] = .ok (1, ([[[([1/2], 1)]]], 2)) :=
  ⟨C9_memoized_queries_idempotent.1 coordC3 (fun _ es => es.length) (fun _ => 0)
      coordC3.initState 0 [0] 1 ([[([0], 1)]], 2) (by with_unfolding_all rfl),
    C9_memoized_queries_idempotent.2.1 retroT (fun _ => 0) retroT.initState 0 0 [0] 1
      ([[[([1/2], 1)]]], 1) (by with_unfolding_all rfl),
    C9_memoized_queries_idempotent.2.2 interT (fun _ probs => probs) (fun _ => 0)
      interT.initState 0 0 [0] 1 ([[[([1/2], 1)]]], 2) (by with_unfolding_all rfl)⟩

/-- Claim C10: throughout the greedy search over a model with nonnegative
capacities, every reachable state keeps the working matching at length
`num_agents` with every assigned entry a genuine locality index,
`caps_remaining[l]` equal to `locality_caps[l]` minus the number of agents
assigned to `l` and never negative; consequently the working matching and
every tentative one-pair extension the next iteration would score pass
`check_valid_matching`. -/
theorem C10_search_state_invariants {σ : Type} (u : σ → Matching → Except PyError (ℚ × σ))
    (num_agents : ℕ) (caps : List ℤ) (st : σ) (hcaps : ∀ c ∈ caps, 0 ≤ c) (k : ℕ)
    (s' : Matching × List ℤ × σ)
    (h : greedyLoop u k (List.replicate num_agents (none : Option ℤ), caps, st) = .ok s') :
    s'.1.length = num_agents ∧
    (∀ x ∈ s'.1, x = none ∨ ∃ l : ℕ, l < caps.length ∧ x = some (l : ℤ)) ∧
    (∀ l < caps.length,
      s'.2.1.getD l 0 = caps.getD l 0 - (assignedTo s'.1 l : ℤ) ∧ 0 ≤ s'.2.1.getD l 0) ∧
    check_valid_matching num_agents caps s'.1 = .ok () ∧
    (∀ p ∈ candidates s'.1 s'.2.1,
      check_valid_matching num_agents caps (s'.1.set p.1 (some (p.2 : ℤ))) = .ok ()) := by
  have hinv := (greedyLoop_inv k _ s' (greedyInv_init num_agents caps st hcaps) h).1
  exact ⟨hinv.1, hinv.2.2.1, hinv.2.2.2.1, check_valid_of_inv hinv,
    fun p hp => check_valid_tentative hinv hp⟩

theorem C10_witness :
    (∀ c ∈ [(1 : ℤ), 1], 0 ≤ c) ∧
    greedyLoop addC7.u 1 (List.replicate 3 (none : Option ℤ), [1, 1], ()) =
      .ok ([some 0, none, none], [0, 1], ()) ∧
    check_valid_matching 3 [1, 1] ([some 0, none, none] : Matching) = .ok () := by
  have h : greedyLoop addC7.u 1 (List.replicate 3 (none : Option ℤ), [1, 1], ()) =
      .ok ([some 0, none, none], [0, 1], ()) := by with_unfolding_all rfl
  have hres := C10_search_state_invariants addC7.u 3 [1, 1] () (by decide) 1
    ([some 0, none, none], [0, 1], ()) h
  exact ⟨by decide, h, hres.2.2.2.1⟩
